import Mathlib

/-!
Pegasus media provider: asset classification, game lookup and the media cache.

A shallow embedding of `src/backend/PegasusAssets.cpp` and of
`src/backend/providers/pegasus_media/MediaProvider.cpp`.

`QString` is embedded as `String`: a character stands for one code unit, and every
literal of the program is ASCII.
-/

namespace pegasus

/-- Modelled from the spec: the enumeration `AssetType` of `types/AssetType.h`, a header that is
not among the sources. The spec lists the closed set of categories (box front/back/spine/full,
cartridge, logo, arcade marquee/bezel/panel/cabinet-left/cabinet-right, UI tile/banner/steam-grid,
poster, background, music, screenshot, video, title-screen, unknown); the constructor names are
the enumerators used in `PegasusAssets.cpp`. -/
inductive AssetType where
  | UNKNOWN
  | BOX_FRONT
  | BOX_BACK
  | BOX_SPINE
  | BOX_FULL
  | CARTRIDGE
  | LOGO
  | POSTER
  | ARCADE_MARQUEE
  | ARCADE_BEZEL
  | ARCADE_PANEL
  | ARCADE_CABINET_L
  | ARCADE_CABINET_R
  | UI_TILE
  | UI_BANNER
  | UI_STEAMGRID
  | BACKGROUND
  | MUSIC
  | SCREENSHOT
  | TITLESCREEN
  | VIDEO
  deriving DecidableEq

/-- All enumerators of `AssetType`. -/
def AssetType.all : List AssetType :=
  [.UNKNOWN, .BOX_FRONT, .BOX_BACK, .BOX_SPINE, .BOX_FULL, .CARTRIDGE, .LOGO, .POSTER,
   .ARCADE_MARQUEE, .ARCADE_BEZEL, .ARCADE_PANEL, .ARCADE_CABINET_L, .ARCADE_CABINET_R,
   .UI_TILE, .UI_BANNER, .UI_STEAMGRID, .BACKGROUND, .MUSIC, .SCREENSHOT, .TITLESCREEN, .VIDEO]

/-- The container `HashMap<K, V>` of `utils/HashMap.h` (a header that is not among the sources),
which the code uses through the interface of an unordered associative container with unique keys:
`find`, `cend`, `emplace` and range-based iteration. A map is represented by its entries in
iteration order. The container fixes no relation between that order and the order in which the
entries were given, so the iteration order of a map is an input of every definition that
iterates one. -/
abbrev HashMap (K V : Type) := List (K × V)

/-- The call `map.find(key)`: the mapped value of the entry with that key, `none` for `cend()`. -/
def HashMap.find {K V : Type} [DecidableEq K] (map : HashMap K V) (key : K) : Option V :=
  match map with
  | [] => none
  | it :: rest => if it.1 = key then some it.2 else HashMap.find rest key

/-- The call `map.emplace(key, value)`, with the meaning it has on the unordered associative
containers: the entry is inserted only when the map holds no entry with that key, and an existing
entry is left as it is. The code only searches the maps it builds with `emplace`, so the place of
the new entry in the iteration order is immaterial. -/
def HashMap.emplace {K V : Type} [DecidableEq K] (map : HashMap K V) (key : K) (value : V) :
    HashMap K V :=
  match HashMap.find map key with
  | some _ => map
  | none => map ++ [(key, value)]

/-- The call `str.startsWith(s)`, case sensitive. -/
def startsWith (str s : String) : Bool :=
  s.data.isPrefixOf str.data

/-- The initializer list of the static `map` of `str_to_type`, in declaration order. -/
def alias_entries : List (String × AssetType) :=
  [ ("boxfront", .BOX_FRONT),
    ("boxFront", .BOX_FRONT),
    ("box_front", .BOX_FRONT),
    ("boxart2D", .BOX_FRONT),
    ("boxart2d", .BOX_FRONT),
    ("boxback", .BOX_BACK),
    ("boxBack", .BOX_BACK),
    ("box_back", .BOX_BACK),
    ("boxspine", .BOX_SPINE),
    ("boxSpine", .BOX_SPINE),
    ("box_spine", .BOX_SPINE),
    ("boxside", .BOX_SPINE),
    ("boxSide", .BOX_SPINE),
    ("box_side", .BOX_SPINE),
    ("boxfull", .BOX_FULL),
    ("boxFull", .BOX_FULL),
    ("box_full", .BOX_FULL),
    ("box", .BOX_FULL),
    ("cartridge", .CARTRIDGE),
    ("disc", .CARTRIDGE),
    ("cart", .CARTRIDGE),
    ("logo", .LOGO),
    ("wheel", .LOGO),
    ("marquee", .ARCADE_MARQUEE),
    ("bezel", .ARCADE_BEZEL),
    ("screenmarquee", .ARCADE_BEZEL),
    ("border", .ARCADE_BEZEL),
    ("panel", .ARCADE_PANEL),
    ("cabinetleft", .ARCADE_CABINET_L),
    ("cabinetLeft", .ARCADE_CABINET_L),
    ("cabinet_left", .ARCADE_CABINET_L),
    ("cabinetright", .ARCADE_CABINET_R),
    ("cabinetRight", .ARCADE_CABINET_R),
    ("cabinet_right", .ARCADE_CABINET_R),
    ("tile", .UI_TILE),
    ("banner", .UI_BANNER),
    ("steam", .UI_STEAMGRID),
    ("steamgrid", .UI_STEAMGRID),
    ("grid", .UI_STEAMGRID),
    ("poster", .POSTER),
    ("flyer", .POSTER),
    ("background", .BACKGROUND),
    ("music", .MUSIC),
    ("screenshot", .SCREENSHOT),
    ("screenshots", .SCREENSHOT),
    ("video", .VIDEO),
    ("videos", .VIDEO),
    ("titlescreen", .TITLESCREEN) ]

/-- The iteration orders the static `map` of `str_to_type` can have: the declared entries, each
once, in some order. -/
def IsAliasMap (map : HashMap String AssetType) : Prop :=
  List.Perm map alias_entries

/-- The function `pegasus_assets::str_to_type`; `map` is the static map in its iteration order. -/
def str_to_type (map : HashMap String AssetType) (str : String) : AssetType :=
  match HashMap.find map str with
  | some second => second
  | none =>
    match List.find? (fun it => startsWith str it.1) map with
    | some it => it.2
    | none => .UNKNOWN

/-- The initializer list of `reverse_map` in `type_to_str`. The map is only searched by key and
its keys are distinct, so its iteration order is not observed. -/
def reverse_map : HashMap AssetType String :=
  [ (.BOX_FRONT, "box_front"),
    (.BOX_BACK, "box_back"),
    (.BOX_SPINE, "box_spine"),
    (.BOX_FULL, "box_full"),
    (.CARTRIDGE, "cartridge"),
    (.LOGO, "logo"),
    (.ARCADE_MARQUEE, "marquee"),
    (.ARCADE_BEZEL, "bezel"),
    (.ARCADE_PANEL, "panel"),
    (.ARCADE_CABINET_L, "cabinet_left"),
    (.ARCADE_CABINET_R, "cabinet_right"),
    (.UI_TILE, "tile"),
    (.UI_BANNER, "banner"),
    (.UI_STEAMGRID, "steamgrid"),
    (.POSTER, "poster"),
    (.BACKGROUND, "background"),
    (.MUSIC, "music"),
    (.SCREENSHOT, "screenshot"),
    (.VIDEO, "video"),
    (.TITLESCREEN, "titlescreen"),
    (.UNKNOWN, "unknown") ]

/-- The function `pegasus_assets::type_to_str`. -/
def type_to_str (type : AssetType) : String :=
  match HashMap.find reverse_map type with
  | some second => second
  | none => "unknown"

/-- The function `allowed_asset_exts` of `MediaProvider.cpp`. -/
def allowed_asset_exts (type : AssetType) : List String :=
  match type with
  | .UNKNOWN => []
  | .VIDEO => ["webm", "mp4", "avi"]
  | .MUSIC => ["mp3", "ogg", "wav"]
  | _ => ["png", "jpg", "webp", "apng"]

/-- The function `detect_asset_type` of `MediaProvider.cpp`; `QStringList::contains` is case
sensitive. -/
def detect_asset_type (map : HashMap String AssetType) (basename ext : String) : AssetType :=
  let type := str_to_type map basename
  if ext ∈ allowed_asset_exts type then type else .UNKNOWN

/-- Modelled from the spec: the game entity `model::Game` of `model/gaming/Game.h`, a header that
is not among the sources. The code handles games by pointer and reads their display title; `ptr`
is the identity of the entity. -/
structure Game where
  ptr : Nat
  title : String
  deriving DecidableEq

/-- Modelled from the spec: the game-file entity `model::GameFile` of `model/gaming/GameFile.h`, a
header that is not among the sources; it exposes a back-reference to its owning game. -/
structure GameFile where
  parentGame : Game
  deriving DecidableEq

/-- What the code reads of a `QFileInfo`: `::clean_abs_dir(fi)` (the path-normalization
collaborator of `utils/PathTools.h`, a black box), `completeBaseName()`, `suffix()`,
`lastModified().toSecsSinceEpoch()` and `size()`. -/
structure QFileInfo where
  clean_abs_dir : String
  completeBaseName : String
  suffix : String
  lastModified : Int
  size : Int

/-- The key `extless_path` of `create_lookup_map`:
`::clean_abs_dir(fi) % QChar('/') % fi.completeBaseName()`. -/
def extless_path (fi : QFileInfo) : String :=
  fi.clean_abs_dir ++ "/" ++ fi.completeBaseName

/-- The key `title_path` of `create_lookup_map`:
`::clean_abs_dir(fi) % QChar('/') % game_ptr->title()`. -/
def title_path (fi : QFileInfo) (game_ptr : Game) : String :=
  fi.clean_abs_dir ++ "/" ++ game_ptr.title

/-- The function `create_lookup_map` of `MediaProvider.cpp`. `fileInfo` is the constructor
`QFileInfo(path)`; `games` is the input map in its iteration order. -/
def create_lookup_map (fileInfo : String → QFileInfo) (games : HashMap String GameFile) :
    HashMap String Game :=
  games.foldl (fun out pair =>
    let fi := fileInfo pair.1
    let game_ptr := pair.2.parentGame
    let out := HashMap.emplace out (extless_path fi) game_ptr
    HashMap.emplace out (title_path fi game_ptr) game_ptr) []

/-- A `QJsonValue`. Numbers are carried as integers: the code stores `mtime` and `size` and never
reads a number back. -/
inductive QJsonValue where
  | null
  | bool (b : Bool)
  | number (n : Int)
  | string (s : String)
  | array (a : List QJsonValue)
  | object (o : List (String × QJsonValue))

/-- A `QJsonArray`. -/
abbrev QJsonArray := List QJsonValue

/-- A `QJsonObject`, as the list of its members; a member is found by the first entry with its
key. -/
abbrev QJsonObject := List (String × QJsonValue)

/-- The conversion `QJsonValue::toString()`: the empty string for a value that is not a string. -/
def QJsonValue.toString (v : QJsonValue) : String :=
  match v with
  | .string s => s
  | _ => ""

/-- The conversion `QJsonValue::toArray()`: the empty array for a value that is not an array. -/
def QJsonValue.toArray (v : QJsonValue) : QJsonArray :=
  match v with
  | .array a => a
  | _ => []

/-- The conversion `QJsonValue::toObject()`: the empty object for a value that is not an
object. -/
def QJsonValue.toObject (v : QJsonValue) : QJsonObject :=
  match v with
  | .object o => o
  | _ => []

/-- The member of an object with the given key, if there is one. -/
def QJsonObject.lookup (o : QJsonObject) (key : String) : Option QJsonValue :=
  match o with
  | [] => none
  | m :: rest => if m.1 = key then some m.2 else QJsonObject.lookup rest key

/-- The call `QJsonObject::insert(key, value)`, also the assignment `obj[key] = value`: the member
with that key is replaced, or a new member is added. -/
def QJsonObject.insert (o : QJsonObject) (key : String) (value : QJsonValue) : QJsonObject :=
  match o with
  | [] => [(key, value)]
  | m :: rest =>
    if m.1 = key then (key, value) :: rest else m :: QJsonObject.insert rest key value

/-- The non-const `QJsonObject::operator[]`: the object after the access and the value read. When
the object has no member with that key, a null member is added to it. -/
def QJsonObject.subscript (o : QJsonObject) (key : String) : QJsonObject × QJsonValue :=
  match QJsonObject.lookup o key with
  | some v => (o, v)
  | none => (QJsonObject.insert o key .null, .null)

/-- A `QJsonObject` constructed from an initializer list of members. -/
def QJsonObject.init (args : List (String × QJsonValue)) : QJsonObject :=
  args.foldl (fun o m => QJsonObject.insert o m.1 m.2) []

/-- A `QJsonDocument`: null (invalid), or holding an array or an object. -/
inductive QJsonDocument where
  | null
  | ofArray (a : QJsonArray)
  | ofObject (o : QJsonObject)

/-- The test `QJsonDocument::isNull()`. -/
def QJsonDocument.isNull (doc : QJsonDocument) : Bool :=
  match doc with
  | .null => true
  | _ => false

/-- The call `QJsonDocument::object()`: the empty object when the document holds an array. -/
def QJsonDocument.object (doc : QJsonDocument) : QJsonObject :=
  match doc with
  | .ofObject o => o
  | _ => []

/-- The bytes of a file. -/
abbrev QByteArray := List Nat

/-- One step of the `QDirIterator` of `run`: `filePath()` and `fileInfo()`. -/
structure DirEntry where
  filePath : String
  fileInfo : QFileInfo

/-- The collaborators of the provider that are outside the repository: Qt's JSON reader and
writer, the file system as it is during one run, and the clock.
* `fromJson`, `toJson`: `QJsonDocument::fromJson` and `QJsonDocument::toJson`;
* `fileInfo path`: the `QFileInfo` constructed from a path;
* `dirExists path`: `QDir(path).exists()`;
* `dirEntries path`: the files that a `QDirIterator` on `path` with `dir_filters` and `dir_flags`
  yields, in enumeration order;
* `currentDateTime media_dir`: `QDateTime::currentDateTime().toString(Qt::ISODate)` at the moment
  the record of `media_dir` is built (a run builds at most one record per directory);
* `canWrite`: whether the cache file can be opened with `QIODevice::WriteOnly`. -/
structure Platform where
  fromJson : QByteArray → QJsonDocument
  toJson : QJsonDocument → QByteArray
  fileInfo : String → QFileInfo
  dirExists : String → Bool
  dirEntries : String → List DirEntry
  currentDateTime : String → String
  canWrite : Bool

/-- Modelled from the spec: what `run` reads of the `SearchContext` of `providers/SearchContext.h`,
a header that is not among the sources: the map from game-file path to game-file entity, in its
iteration order, and the ordered sequence of collection root directories. -/
structure SearchContext where
  current_filepath_to_entry_map : HashMap String GameFile
  pegasus_game_dirs : List String

/-- The object `QJsonObject{{"version", "1.0"}, {"media_dirs", QJsonArray{}}}`. -/
def empty_cache : QJsonObject :=
  QJsonObject.init [("version", .string "1.0"), ("media_dirs", .array [])]

/-- The method `MediaProvider::load_cache`: the new value of `m_cache_data`. `file` is the content
of the file at `m_cache_path`, `none` when it cannot be opened for reading. The log messages are
not part of the embedding. -/
def load_cache (fromJson : QByteArray → QJsonDocument) (file : Option QByteArray) : QJsonObject :=
  match file with
  | none => empty_cache
  | some data =>
    let doc := fromJson data
    if doc.isNull then empty_cache
    else
      let r := QJsonObject.subscript doc.object "version"
      if r.2.toString ≠ "1.0" then empty_cache else r.1

/-- The method `MediaProvider::save_cache`: the content of the file at `m_cache_path` after the
call. -/
def save_cache (pf : Platform) (m_cache_data : QJsonObject) (file : Option QByteArray) :
    Option QByteArray :=
  if pf.canWrite then some (pf.toJson (.ofObject m_cache_data)) else file

/-- The call `str.remove(position, n)` for a position that is not negative. -/
def QString.remove (str : String) (position n : Nat) : String :=
  if position < str.length then ⟨str.data.take position ++ str.data.drop (position + n)⟩
  else str

/-- One call `game->assetsMut().add_file(asset_type, file_path)`. -/
abbrev AddFile := Game × AssetType × String

/-- The constant `MEDIA_SUBDIRS` of `run`. -/
def MEDIA_SUBDIRS : List String := ["/media"]

/-- The search of `run` for the record of `media_dir` in `cached_media_dirs`: `cached_dir` when
`dir_exists_in_cache`. -/
def find_cached_dir (cached_media_dirs : QJsonArray) (media_dir : String) : Option QJsonObject :=
  match cached_media_dirs with
  | [] => none
  | item :: rest =>
    let r := QJsonObject.subscript item.toObject "dir_path"
    if r.2.toString = media_dir then some r.1 else find_cached_dir rest media_dir

/-- The body of the loop of `run` over `cached_files` (cache hit): the call of `add_file` it
makes, if any. -/
def replay_file (map : HashMap String AssetType) (lookup_map : HashMap String Game)
    (item : QJsonValue) : Option AddFile :=
  let r1 := QJsonObject.subscript item.toObject "file_path"
  let file_path := r1.2.toString
  let r2 := QJsonObject.subscript r1.1 "game_key"
  let lookup_key := r2.2.toString
  match HashMap.find lookup_map lookup_key with
  | none => none
  | some game =>
    let r3 := QJsonObject.subscript r2.1 "asset_type"
    let asset_type := str_to_type map r3.2.toString
    some (game, asset_type, file_path)

/-- The body of the loop of `run` over the directory iterator (cache miss): the call of `add_file`
it makes and the file record it appends to `new_cached_files`, if any. -/
def scan_file (map : HashMap String AssetType) (lookup_map : HashMap String Game)
    (dir_base media_subdir_name : String) (e : DirEntry) : Option (AddFile × QJsonValue) :=
  let fileinfo := e.fileInfo
  let file_path := e.filePath
  let lookup_key := QString.remove fileinfo.clean_abs_dir dir_base.length media_subdir_name.length
  match HashMap.find lookup_map lookup_key with
  | none => none
  | some game =>
    let asset_type := detect_asset_type map fileinfo.completeBaseName fileinfo.suffix
    if asset_type = .UNKNOWN then none
    else
      let new_cached_file := QJsonObject.init
        [ ("file_path", .string file_path),
          ("asset_type", .string (type_to_str asset_type)),
          ("mtime", .number fileinfo.lastModified),
          ("size", .number fileinfo.size),
          ("game_key", .string lookup_key) ]
      some ((game, asset_type, file_path), .object new_cached_file)

/-- The state of the loops of `run`: the local `cached_media_dirs`, the calls of `add_file` made
so far, and the directories on which a `QDirIterator` was run so far. -/
structure RunState where
  cached_media_dirs : QJsonArray
  added : List AddFile
  scanned : List String

/-- The body of the inner loop of `run`, for one `dir_base` and one `media_subdir_name`. -/
def visit_media_dir (map : HashMap String AssetType) (pf : Platform)
    (lookup_map : HashMap String Game) (st : RunState) (dir_base media_subdir_name : String) :
    RunState :=
  let media_dir := dir_base ++ media_subdir_name
  if pf.dirExists media_dir = false then st
  else
    match find_cached_dir st.cached_media_dirs media_dir with
    | some cached_dir =>
      let cached_files := (QJsonObject.subscript cached_dir "files").2.toArray
      { st with added := st.added ++ cached_files.filterMap (replay_file map lookup_map) }
    | none =>
      let found := (pf.dirEntries media_dir).filterMap
        (scan_file map lookup_map dir_base media_subdir_name)
      let new_cached_files := found.map Prod.snd
      let new_dir := QJsonObject.init
        [ ("dir_path", .string media_dir),
          ("last_scan_time", .string (pf.currentDateTime media_dir)),
          ("files", .array new_cached_files) ]
      { cached_media_dirs := st.cached_media_dirs ++ [.object new_dir],
        added := st.added ++ found.map Prod.fst,
        scanned := st.scanned ++ [media_dir] }

/-- The loops of `run` over `pegasus_game_dirs` and `MEDIA_SUBDIRS`. -/
def visit_game_dirs (map : HashMap String AssetType) (pf : Platform)
    (lookup_map : HashMap String Game) (st : RunState) (game_dirs : List String) : RunState :=
  game_dirs.foldl (fun st dir_base =>
    MEDIA_SUBDIRS.foldl (fun st media_subdir_name =>
      visit_media_dir map pf lookup_map st dir_base media_subdir_name) st) st

/-- What one call of `run` does: the calls of `add_file` in order, the final `m_cache_data`, the
content of the cache file afterwards, and the directories that were enumerated. -/
structure RunResult where
  added : List AddFile
  m_cache_data : QJsonObject
  file : Option QByteArray
  scanned : List String

/-- The method `MediaProvider::run`. `file` is the content of the cache file before the call. -/
def run (map : HashMap String AssetType) (pf : Platform) (sctx : SearchContext)
    (file : Option QByteArray) : RunResult :=
  let m0 := load_cache pf.fromJson file
  let lookup_map := create_lookup_map pf.fileInfo sctx.current_filepath_to_entry_map
  let r := QJsonObject.subscript m0 "media_dirs"
  let st := visit_game_dirs map pf lookup_map ⟨r.2.toArray, [], []⟩ sctx.pegasus_game_dirs
  let m1 := QJsonObject.insert r.1 "media_dirs" (.array st.cached_media_dirs)
  { added := st.added,
    m_cache_data := m1,
    file := save_cache pf m1 file,
    scanned := st.scanned }

/-- The calls `out.emplace(key, game_ptr)` that `create_lookup_map` makes, in the order in which
it makes them. -/
def lookup_insertions (fileInfo : String → QFileInfo) (games : HashMap String GameFile) :
    List (String × Game) :=
  match games with
  | [] => []
  | pair :: rest =>
    (extless_path (fileInfo pair.1), pair.2.parentGame) ::
      (title_path (fileInfo pair.1) pair.2.parentGame, pair.2.parentGame) ::
      lookup_insertions fileInfo rest

/-- A scenario with colliding keys: in the directory `/games`, the game titled `b` owns `a.rom`
and another game owns `b.rom`. -/
def collision_games : HashMap String GameFile :=
  [("/games/a.rom", ⟨⟨1, "b"⟩⟩), ("/games/b.rom", ⟨⟨2, "Game B"⟩⟩)]

/-- The `QFileInfo` of the game files of the collision scenario. -/
def collision_fileInfo (path : String) : QFileInfo :=
  if path = "/games/a.rom" then ⟨"/games", "a", "rom", 0, 0⟩
  else ⟨"/games", "b", "rom", 0, 0⟩

/-- The game `Foo` of the end-to-end scenario. -/
def foo_game : Game := ⟨1, "Foo"⟩

/-- The search context of the end-to-end scenario: the game `Foo` owns the game file
`/games/foo.rom`, and `/games` is the only root directory. -/
def foo_sctx : SearchContext :=
  { current_filepath_to_entry_map := [("/games/foo.rom", ⟨foo_game⟩)],
    pegasus_game_dirs := ["/games"] }

/-- A media file of the end-to-end scenario: the file `name.ext` in the directory `dir`. -/
def media_file (dir name ext : String) : DirEntry :=
  { filePath := dir ++ "/" ++ name ++ "." ++ ext,
    fileInfo := ⟨dir, name, ext, 1750000000, 4096⟩ }

/-- The platform of the end-to-end scenario: the directory `/games/media` exists and its
enumeration yields the files `media`; the cache file can be written, and `fromJson` reads every
file as the document `doc`. -/
def foo_platform (media : List DirEntry) (doc : QJsonDocument) : Platform :=
  { fromJson := fun _ => doc,
    toJson := fun _ => [],
    fileInfo := fun path =>
      if path = "/games/foo.rom" then ⟨"/games", "foo", "rom", 1740000000, 1048576⟩
      else ⟨"", "", "", 0, 0⟩,
    dirExists := fun path => decide (path = "/games/media"),
    dirEntries := fun path => if path = "/games/media" then media else [],
    currentDateTime := fun _ => "2025-06-15T12:00:00",
    canWrite := true }

/-- The directory record that a fresh scan of `/games/media` writes in the end-to-end scenario
when it accepts the files `files`. -/
def foo_record (files : QJsonArray) : QJsonValue :=
  .object [("dir_path", .string "/games/media"),
    ("last_scan_time", .string "2025-06-15T12:00:00"),
    ("files", .array files)]

/-- The cache of the end-to-end scenario after a fresh scan that accepts the files `files`. -/
def foo_cache (files : QJsonArray) : QJsonObject :=
  [("version", .string "1.0"), ("media_dirs", .array [foo_record files])]

/-- The file record of `/games/media/foo/boxfront.png` in the end-to-end scenario. -/
def foo_boxfront_record : QJsonValue :=
  .object [("file_path", .string "/games/media/foo/boxfront.png"),
    ("asset_type", .string "box_front"),
    ("mtime", .number 1750000000),
    ("size", .number 4096),
    ("game_key", .string "/games/foo")]

/-- The value `obj["dir_path"].toString()` that `run` reads of an item of `cached_media_dirs`. -/
def cached_dir_path (item : QJsonValue) : String :=
  (QJsonObject.subscript item.toObject "dir_path").2.toString

/-- The value `cached_file["file_path"].toString()` that `run` reads of an item of
`cached_files`. -/
def cached_file_path (item : QJsonValue) : String :=
  (QJsonObject.subscript item.toObject "file_path").2.toString

/-- The value `cached_file["game_key"].toString()` that `run` reads of an item of
`cached_files`. -/
def cached_game_key (item : QJsonValue) : String :=
  (QJsonObject.subscript item.toObject "game_key").2.toString

/-- The value `cached_file["asset_type"].toString()` that `run` reads of an item of
`cached_files`. -/
def cached_asset_type (item : QJsonValue) : String :=
  (QJsonObject.subscript item.toObject "asset_type").2.toString

/-- The list `cached_dir["files"].toArray()` that `run` reads of a directory record. -/
def cached_files (cached_dir : QJsonObject) : QJsonArray :=
  (QJsonObject.subscript cached_dir "files").2.toArray

/-- The list `m_cache_data["media_dirs"].toArray()` of a cache root. -/
def media_dirs (m_cache_data : QJsonObject) : QJsonArray :=
  (QJsonObject.subscript m_cache_data "media_dirs").2.toArray

/-- The cache file of the end-to-end scenario on a later start: a file whose content `fromJson`
reads as the document of the platform. -/
def foo_file : Option QByteArray := some []

/-- A file record of the end-to-end scenario with the given path, asset type token and game
key. -/
def foo_file_record (file_path asset_type game_key : String) : QJsonValue :=
  .object [("file_path", .string file_path),
    ("asset_type", .string asset_type),
    ("mtime", .number 1750000000),
    ("size", .number 4096),
    ("game_key", .string game_key)]

/-- The value `lookup_key` that the cache-miss loop of `run` computes for an enumerated file:
`::clean_abs_dir(fileinfo).remove(dir_base.length(), media_subdir_name.size())`. -/
def scan_lookup_key (dir_base media_subdir_name : String) (e : DirEntry) : String :=
  QString.remove e.fileInfo.clean_abs_dir dir_base.length media_subdir_name.length

/-- The platform `pf` with another content of the directories and another clock: the same cache
file reader and writer, the same game files and the same existing directories. -/
def Platform.withFiles (pf : Platform) (dirEntries : String → List DirEntry)
    (currentDateTime : String → String) : Platform :=
  { fromJson := pf.fromJson,
    toJson := pf.toJson,
    fileInfo := pf.fileInfo,
    dirExists := pf.dirExists,
    dirEntries := dirEntries,
    currentDateTime := currentDateTime,
    canWrite := pf.canWrite }

/-- Whether the cache-miss loop of `run` accepts an enumerated file: its lookup key resolves in
the index and its detected asset type is not `UNKNOWN`. -/
def scan_accepts (map : HashMap String AssetType) (lookup_map : HashMap String Game)
    (dir_base media_subdir_name : String) (e : DirEntry) : Bool :=
  (HashMap.find lookup_map (scan_lookup_key dir_base media_subdir_name e)).isSome &&
    decide (detect_asset_type map e.fileInfo.completeBaseName e.fileInfo.suffix ≠ .UNKNOWN)

/-! ## Maps -/

theorem HashMap.find_of_mem {K V : Type} [DecidableEq K] :
    ∀ (map : HashMap K V) (k : K) (v : V),
      (map.map Prod.fst).Nodup → (k, v) ∈ map → HashMap.find map k = some v
  | [], _, _, _, hmem => by simp at hmem
  | it :: rest, k, v, hnd, hmem => by
    simp only [List.map_cons, List.nodup_cons] at hnd
    rcases List.mem_cons.1 hmem with h | h
    · subst h
      simp [HashMap.find]
    · have hne : it.1 ≠ k := fun e => hnd.1 (e ▸ List.mem_map_of_mem Prod.fst h)
      simp [HashMap.find, hne, HashMap.find_of_mem rest k v hnd.2 h]

theorem HashMap.find_eq_none_iff {K V : Type} [DecidableEq K] (map : HashMap K V) (k : K) :
    HashMap.find map k = none ↔ ∀ p ∈ map, p.1 ≠ k := by
  induction map with
  | nil => simp [HashMap.find]
  | cons it rest ih =>
    by_cases h : it.1 = k
    · simp [HashMap.find, h]
    · simp [HashMap.find, h, ih]

theorem HashMap.mem_of_find {K V : Type} [DecidableEq K] (map : HashMap K V) (k : K) (v : V)
    (h : HashMap.find map k = some v) : (k, v) ∈ map := by
  induction map with
  | nil => simp [HashMap.find] at h
  | cons it rest ih =>
    by_cases hk : it.1 = k
    · simp [HashMap.find, hk] at h
      subst hk
      subst h
      simp
    · simp [HashMap.find, hk] at h
      exact List.mem_cons_of_mem _ (ih h)

theorem HashMap.find_append {K V : Type} [DecidableEq K] (a b : HashMap K V) (k : K) :
    HashMap.find (a ++ b) k =
      match HashMap.find a k with
      | some v => some v
      | none => HashMap.find b k := by
  induction a with
  | nil => simp [HashMap.find]
  | cons it rest ih =>
    by_cases h : it.1 = k
    · simp [HashMap.find, h]
    · simp [HashMap.find, h, ih]

/-- After `emplace`, a key resolves as in the list of entries extended at its end: an entry that
is already present is kept. -/
theorem HashMap.find_emplace {K V : Type} [DecidableEq K] (map : HashMap K V) (key : K)
    (value : V) (k : K) :
    HashMap.find (HashMap.emplace map key value) k = HashMap.find (map ++ [(key, value)]) k := by
  rw [HashMap.find_append]
  unfold HashMap.emplace
  cases hf : HashMap.find map key with
  | none =>
    simp only []
    rw [HashMap.find_append]
  | some v =>
    simp only []
    cases hk : HashMap.find map k with
    | some w => rfl
    | none =>
      have hne : key ≠ k := by
        intro e
        rw [e, hk] at hf
        exact Option.noConfusion hf
      simp [HashMap.find, hne]

theorem HashMap.find_append_congr {K V : Type} [DecidableEq K] (a a' b : HashMap K V) (k : K)
    (h : HashMap.find a k = HashMap.find a' k) :
    HashMap.find (a ++ b) k = HashMap.find (a' ++ b) k := by
  rw [HashMap.find_append, HashMap.find_append, h]

/-! ## The lookup map -/

theorem find_foldl_emplace (fileInfo : String → QFileInfo) (games : HashMap String GameFile) :
    ∀ (out : HashMap String Game) (k : String),
      HashMap.find (games.foldl (fun out pair =>
        let fi := fileInfo pair.1
        let game_ptr := pair.2.parentGame
        let out := HashMap.emplace out (extless_path fi) game_ptr
        HashMap.emplace out (title_path fi game_ptr) game_ptr) out) k
      = HashMap.find (out ++ lookup_insertions fileInfo games) k := by
  induction games with
  | nil => intro out k; simp [lookup_insertions]
  | cons pair rest ih =>
    intro out k
    simp only [List.foldl_cons, lookup_insertions]
    rw [ih]
    have e : out ++ (extless_path (fileInfo pair.1), pair.2.parentGame) ::
        (title_path (fileInfo pair.1) pair.2.parentGame, pair.2.parentGame) ::
        lookup_insertions fileInfo rest
        = ((out ++ [(extless_path (fileInfo pair.1), pair.2.parentGame)]) ++
            [(title_path (fileInfo pair.1) pair.2.parentGame, pair.2.parentGame)]) ++
          lookup_insertions fileInfo rest := by simp
    rw [e]
    apply HashMap.find_append_congr
    rw [HashMap.find_emplace]
    apply HashMap.find_append_congr
    rw [HashMap.find_emplace]

/-- The lookup map resolves a key as the list of insertions does: to the game of the first
insertion made with that key. -/
theorem find_create_lookup_map (fileInfo : String → QFileInfo) (games : HashMap String GameFile)
    (k : String) :
    HashMap.find (create_lookup_map fileInfo games) k
      = HashMap.find (lookup_insertions fileInfo games) k := by
  unfold create_lookup_map
  rw [find_foldl_emplace]
  simp

theorem mem_lookup_insertions (fileInfo : String → QFileInfo) (games : HashMap String GameFile)
    (k : String) (g : Game) :
    (k, g) ∈ lookup_insertions fileInfo games ↔
      ∃ pair ∈ games, pair.2.parentGame = g ∧
        (k = extless_path (fileInfo pair.1) ∨ k = title_path (fileInfo pair.1) pair.2.parentGame) := by
  induction games with
  | nil => simp [lookup_insertions]
  | cons pair rest ih =>
    simp only [lookup_insertions, List.mem_cons, Prod.mk.injEq, ih]
    constructor
    · rintro (⟨hk, hg⟩ | ⟨hk, hg⟩ | ⟨p, hp, hg, hk⟩)
      · exact ⟨pair, Or.inl rfl, hg.symm, Or.inl hk⟩
      · exact ⟨pair, Or.inl rfl, hg.symm, Or.inr hk⟩
      · exact ⟨p, Or.inr hp, hg, hk⟩
    · rintro ⟨p, hp | hp, hg, hk⟩
      · subst hp
        rcases hk with hk | hk
        · exact Or.inl ⟨hk, hg.symm⟩
        · exact Or.inr (Or.inl ⟨hk, hg.symm⟩)
      · exact Or.inr (Or.inr ⟨p, hp, hg, hk⟩)

/-! ## JSON objects and the cache file -/

theorem QJsonValue.toString_eq_iff (v : QJsonValue) (s : String) (hs : s ≠ "") :
    v.toString = s ↔ v = .string s := by
  cases v <;> simp [QJsonValue.toString, Ne.symm hs]

theorem QJsonObject.subscript_of_lookup {o : QJsonObject} {key : String} {v : QJsonValue}
    (h : QJsonObject.lookup o key = some v) : QJsonObject.subscript o key = (o, v) := by
  simp [QJsonObject.subscript, h]

theorem QJsonObject.subscript_snd (o : QJsonObject) (key : String) :
    (QJsonObject.subscript o key).2 =
      match QJsonObject.lookup o key with
      | some v => v
      | none => .null := by
  unfold QJsonObject.subscript
  cases QJsonObject.lookup o key <;> rfl

theorem QJsonObject.subscript_toString_eq_iff (o : QJsonObject) (key s : String) (hs : s ≠ "") :
    (QJsonObject.subscript o key).2.toString = s ↔
      QJsonObject.lookup o key = some (.string s) := by
  rw [QJsonObject.subscript_snd]
  cases h : QJsonObject.lookup o key with
  | none => simp [QJsonValue.toString, Ne.symm hs]
  | some v => simp [QJsonValue.toString_eq_iff v s hs]

theorem empty_cache_eq :
    empty_cache = [("version", .string "1.0"), ("media_dirs", .array [])] := by
  simp [empty_cache, QJsonObject.init, QJsonObject.insert]

theorem lookup_version_empty_cache :
    QJsonObject.lookup empty_cache "version" = some (.string "1.0") := by
  simp [empty_cache_eq, QJsonObject.lookup]

/-- The loaded cache is the object of the document when the file parses to a document whose
`version` is the string `1.0`. -/
theorem load_cache_of_version (fromJson : QByteArray → QJsonDocument) (data : QByteArray)
    (hnull : (fromJson data).isNull = false)
    (hv : QJsonObject.lookup (fromJson data).object "version" = some (.string "1.0")) :
    load_cache fromJson (some data) = (fromJson data).object := by
  simp [load_cache, hnull, QJsonObject.subscript_of_lookup hv, QJsonValue.toString]

theorem load_cache_of_null (fromJson : QByteArray → QJsonDocument) (data : QByteArray)
    (hnull : (fromJson data).isNull = true) :
    load_cache fromJson (some data) = empty_cache := by
  simp [load_cache, hnull]

theorem load_cache_of_bad_version (fromJson : QByteArray → QJsonDocument) (data : QByteArray)
    (hv : QJsonObject.lookup (fromJson data).object "version" ≠ some (.string "1.0")) :
    load_cache fromJson (some data) = empty_cache := by
  have h1 : ¬ (QJsonObject.subscript (fromJson data).object "version").2.toString = "1.0" :=
    fun e => hv ((QJsonObject.subscript_toString_eq_iff _ _ _ (by decide)).1 e)
  by_cases hnull : (fromJson data).isNull = true
  · exact load_cache_of_null fromJson data hnull
  · simp [load_cache, hnull, h1]

theorem lookup_version_load_cache (fromJson : QByteArray → QJsonDocument)
    (file : Option QByteArray) :
    QJsonObject.lookup (load_cache fromJson file) "version" = some (.string "1.0") := by
  cases file with
  | none => exact lookup_version_empty_cache
  | some data =>
    by_cases hnull : (fromJson data).isNull = true
    · rw [load_cache_of_null fromJson data hnull]
      exact lookup_version_empty_cache
    · rcases Classical.em
        (QJsonObject.lookup (fromJson data).object "version" = some (.string "1.0")) with hv | hv
      · rw [load_cache_of_version fromJson data (by simpa using hnull) hv]
        exact hv
      · rw [load_cache_of_bad_version fromJson data hv]
        exact lookup_version_empty_cache

theorem QJsonObject.lookup_insert_self (o : QJsonObject) (key : String) (value : QJsonValue) :
    QJsonObject.lookup (QJsonObject.insert o key value) key = some value := by
  induction o with
  | nil => simp [QJsonObject.insert, QJsonObject.lookup]
  | cons m rest ih =>
    by_cases h : m.1 = key
    · simp [QJsonObject.insert, QJsonObject.lookup, h]
    · simp [QJsonObject.insert, QJsonObject.lookup, h, ih]

theorem QJsonObject.lookup_insert_of_ne (o : QJsonObject) (key k : String) (value : QJsonValue)
    (hne : key ≠ k) :
    QJsonObject.lookup (QJsonObject.insert o key value) k = QJsonObject.lookup o k := by
  induction o with
  | nil => simp [QJsonObject.insert, QJsonObject.lookup, hne]
  | cons m rest ih =>
    by_cases h : m.1 = key
    · have h' : m.1 ≠ k := fun e => hne (h ▸ e)
      simp [QJsonObject.insert, QJsonObject.lookup, h, hne, h']
    · by_cases hk : m.1 = k
      · subst hk
        simp [QJsonObject.insert, QJsonObject.lookup, h]
      · simp [QJsonObject.insert, QJsonObject.lookup, h, hk, ih]

theorem QJsonObject.insert_insert (o : QJsonObject) (key : String) (v w : QJsonValue) :
    QJsonObject.insert (QJsonObject.insert o key v) key w = QJsonObject.insert o key w := by
  induction o with
  | nil => simp [QJsonObject.insert]
  | cons m rest ih =>
    by_cases h : m.1 = key
    · simp [QJsonObject.insert, h]
    · simp [QJsonObject.insert, h, ih]

theorem QJsonObject.lookup_subscript_of_ne (o : QJsonObject) (key k : String) (hne : key ≠ k) :
    QJsonObject.lookup (QJsonObject.subscript o key).1 k = QJsonObject.lookup o k := by
  unfold QJsonObject.subscript
  cases QJsonObject.lookup o key with
  | some v => rfl
  | none => exact QJsonObject.lookup_insert_of_ne o key k .null hne

/-! ## The classifier -/

theorem alias_keys_nodup : (alias_entries.map Prod.fst).Nodup := by decide

theorem IsAliasMap.keys_nodup {map : HashMap String AssetType} (h : IsAliasMap map) :
    (map.map Prod.fst).Nodup :=
  (List.Perm.nodup_iff (List.Perm.map Prod.fst h)).2 alias_keys_nodup

theorem IsAliasMap.mem_iff {map : HashMap String AssetType} (h : IsAliasMap map)
    (p : String × AssetType) : p ∈ map ↔ p ∈ alias_entries :=
  List.Perm.mem_iff h

/-- An alias of the table is classified by the exact lookup, in every iteration order. -/
theorem find_alias {map : HashMap String AssetType} (h : IsAliasMap map) {name : String}
    {category : AssetType} (hmem : (name, category) ∈ alias_entries) :
    HashMap.find map name = some category :=
  HashMap.find_of_mem map name category h.keys_nodup ((h.mem_iff _).2 hmem)

theorem str_to_type_of_alias {map : HashMap String AssetType} (h : IsAliasMap map) {name : String}
    {category : AssetType} (hmem : (name, category) ∈ alias_entries) :
    str_to_type map name = category := by
  simp [str_to_type, find_alias h hmem]

/-- A token that no alias equals is classified by the first entry, in iteration order, whose alias
is a prefix of it. -/
theorem str_to_type_of_not_alias {map : HashMap String AssetType} (h : IsAliasMap map)
    {token : String} (hne : ∀ p ∈ alias_entries, p.1 ≠ token) :
    str_to_type map token =
      match List.find? (fun it => startsWith token it.1) map with
      | some it => it.2
      | none => .UNKNOWN := by
  have hfind : HashMap.find map token = none :=
    (HashMap.find_eq_none_iff map token).2 (fun p hp => hne p ((h.mem_iff p).1 hp))
  simp [str_to_type, hfind]

theorem str_to_type_of_no_match {map : HashMap String AssetType} (h : IsAliasMap map)
    {token : String}
    (hno : ∀ p ∈ alias_entries, p.1 ≠ token ∧ startsWith token p.1 = false) :
    str_to_type map token = .UNKNOWN := by
  rw [str_to_type_of_not_alias h (fun p hp => (hno p hp).1)]
  have hnone : List.find? (fun it => startsWith token it.1) map = none := by
    rw [List.find?_eq_none]
    intro p hp
    simp [(hno p ((h.mem_iff p).1 hp)).2]
  simp [hnone]

/-- When every alias that is a prefix of the token has the category `c`, and there is one, the
prefix fallback gives `c` in every iteration order. -/
theorem str_to_type_of_agreeing_prefixes {map : HashMap String AssetType} (h : IsAliasMap map)
    {token : String} (hne : ∀ p ∈ alias_entries, p.1 ≠ token) {c : AssetType}
    (hex : ∃ p ∈ alias_entries, startsWith token p.1 = true)
    (hall : ∀ p ∈ alias_entries, startsWith token p.1 = true → p.2 = c) :
    str_to_type map token = c := by
  rw [str_to_type_of_not_alias h hne]
  cases hf : List.find? (fun it => startsWith token it.1) map with
  | none =>
    obtain ⟨p, hp, hpre⟩ := hex
    have := List.find?_eq_none.1 hf p ((h.mem_iff p).2 hp)
    simp [hpre] at this
  | some it =>
    have hmem := (h.mem_iff it).1 (List.mem_of_find?_eq_some hf)
    have hpre := List.find?_some hf
    exact hall it hmem hpre

theorem str_to_type_type_to_str {map : HashMap String AssetType} (h : IsAliasMap map)
    (C : AssetType) : str_to_type map (type_to_str C) = C := by
  cases C
  case UNKNOWN => exact str_to_type_of_no_match h (by decide)
  all_goals exact str_to_type_of_alias h (by decide)

/-! ## The directory loop of `run` -/

theorem find_cached_dir_append_of_some (L ext : QJsonArray) (media_dir : String)
    (r : QJsonObject) (h : find_cached_dir L media_dir = some r) :
    find_cached_dir (L ++ ext) media_dir = some r := by
  induction L with
  | nil => simp [find_cached_dir] at h
  | cons item rest ih =>
    by_cases hd : (QJsonObject.subscript item.toObject "dir_path").2.toString = media_dir
    · simpa [find_cached_dir, hd] using h
    · simp only [find_cached_dir, hd, if_false] at h
      simp only [List.cons_append, find_cached_dir, hd, if_false]
      exact ih h

theorem find_cached_dir_append_of_none (L ext : QJsonArray) (media_dir : String)
    (h : find_cached_dir L media_dir = none) :
    find_cached_dir (L ++ ext) media_dir = find_cached_dir ext media_dir := by
  induction L with
  | nil => rfl
  | cons item rest ih =>
    by_cases hd : (QJsonObject.subscript item.toObject "dir_path").2.toString = media_dir
    · simp [find_cached_dir, hd] at h
    · simp only [find_cached_dir, hd, if_false] at h
      simp only [List.cons_append, find_cached_dir, hd, if_false]
      exact ih h

/-- The record that a fresh scan appends is the one found for its directory. -/
theorem find_cached_dir_new_dir (media_dir time : String) (files ext : QJsonArray) :
    find_cached_dir
      (.object (QJsonObject.init [("dir_path", .string media_dir),
        ("last_scan_time", .string time), ("files", .array files)]) :: ext) media_dir
      = some [("dir_path", .string media_dir), ("last_scan_time", .string time),
          ("files", .array files)] := by
  simp [find_cached_dir, QJsonObject.init, QJsonObject.insert, QJsonValue.toObject,
    QJsonObject.subscript, QJsonObject.lookup, QJsonValue.toString]

theorem visit_media_dir_skip (map : HashMap String AssetType) (pf : Platform)
    (lookup_map : HashMap String Game) (st : RunState) (dir_base media_subdir_name : String)
    (hex : pf.dirExists (dir_base ++ media_subdir_name) = false) :
    visit_media_dir map pf lookup_map st dir_base media_subdir_name = st := by
  simp [visit_media_dir, hex]

theorem visit_media_dir_hit (map : HashMap String AssetType) (pf : Platform)
    (lookup_map : HashMap String Game) (st : RunState) (dir_base media_subdir_name : String)
    (cached_dir : QJsonObject)
    (hex : pf.dirExists (dir_base ++ media_subdir_name) = true)
    (hfind : find_cached_dir st.cached_media_dirs (dir_base ++ media_subdir_name)
      = some cached_dir) :
    visit_media_dir map pf lookup_map st dir_base media_subdir_name =
      ⟨st.cached_media_dirs,
        st.added ++ List.filterMap (replay_file map lookup_map)
          (QJsonObject.subscript cached_dir "files").2.toArray,
        st.scanned⟩ := by
  simp [visit_media_dir, hex, hfind]

theorem visit_media_dir_miss (map : HashMap String AssetType) (pf : Platform)
    (lookup_map : HashMap String Game) (st : RunState) (dir_base media_subdir_name : String)
    (hex : pf.dirExists (dir_base ++ media_subdir_name) = true)
    (hfind : find_cached_dir st.cached_media_dirs (dir_base ++ media_subdir_name) = none) :
    visit_media_dir map pf lookup_map st dir_base media_subdir_name =
      { cached_media_dirs := st.cached_media_dirs ++
          [.object (QJsonObject.init
            [ ("dir_path", .string (dir_base ++ media_subdir_name)),
              ("last_scan_time", .string (pf.currentDateTime (dir_base ++ media_subdir_name))),
              ("files", .array (((pf.dirEntries (dir_base ++ media_subdir_name)).filterMap
                (scan_file map lookup_map dir_base media_subdir_name)).map Prod.snd)) ])],
        added := st.added ++
          ((pf.dirEntries (dir_base ++ media_subdir_name)).filterMap
            (scan_file map lookup_map dir_base media_subdir_name)).map Prod.fst,
        scanned := st.scanned ++ [dir_base ++ media_subdir_name] } := by
  simp [visit_media_dir, hex, hfind]

/-- The loop only appends to `cached_media_dirs`. -/
theorem visit_media_dir_extends (map : HashMap String AssetType) (pf : Platform)
    (lookup_map : HashMap String Game) (st : RunState) (dir_base media_subdir_name : String) :
    st.cached_media_dirs <+:
      (visit_media_dir map pf lookup_map st dir_base media_subdir_name).cached_media_dirs := by
  cases hex : pf.dirExists (dir_base ++ media_subdir_name) with
  | false =>
    rw [visit_media_dir_skip map pf lookup_map st dir_base media_subdir_name hex]
  | true =>
    cases hfind : find_cached_dir st.cached_media_dirs (dir_base ++ media_subdir_name) with
    | some cached_dir =>
      rw [visit_media_dir_hit map pf lookup_map st dir_base media_subdir_name cached_dir hex hfind]
    | none =>
      rw [visit_media_dir_miss map pf lookup_map st dir_base media_subdir_name hex hfind]
      exact List.prefix_append _ _

theorem visit_game_dirs_cons (map : HashMap String AssetType) (pf : Platform)
    (lookup_map : HashMap String Game) (st : RunState) (dir_base : String)
    (rest : List String) :
    visit_game_dirs map pf lookup_map st (dir_base :: rest) =
      visit_game_dirs map pf lookup_map
        (visit_media_dir map pf lookup_map st dir_base "/media") rest := rfl

theorem visit_game_dirs_extends (map : HashMap String AssetType) (pf : Platform)
    (lookup_map : HashMap String Game) (game_dirs : List String) :
    ∀ st : RunState, st.cached_media_dirs <+:
      (visit_game_dirs map pf lookup_map st game_dirs).cached_media_dirs := by
  induction game_dirs with
  | nil => intro st; exact List.prefix_refl _
  | cons dir_base rest ih =>
    intro st
    rw [visit_game_dirs_cons]
    exact (visit_media_dir_extends map pf lookup_map st dir_base "/media").trans (ih _)

/-- The file record that a fresh scan writes for a file replays to the call of `add_file` that
the scan made for it. -/
theorem replay_file_of_scan_file {map : HashMap String AssetType} (hmap : IsAliasMap map)
    (lookup_map : HashMap String Game) (dir_base media_subdir_name : String) (e : DirEntry)
    (a : AddFile) (f : QJsonValue)
    (h : scan_file map lookup_map dir_base media_subdir_name e = some (a, f)) :
    replay_file map lookup_map f = some a := by
  unfold scan_file at h
  simp only [] at h
  cases hfind : HashMap.find lookup_map
      (QString.remove e.fileInfo.clean_abs_dir dir_base.length media_subdir_name.length) with
  | none =>
    rw [hfind] at h
    exact Option.noConfusion h
  | some game =>
    rw [hfind] at h
    simp only [] at h
    by_cases hu : detect_asset_type map e.fileInfo.completeBaseName e.fileInfo.suffix = .UNKNOWN
    · simp [hu] at h
    · simp only [hu, if_false, Option.some.injEq, Prod.mk.injEq] at h
      obtain ⟨ha, hf⟩ := h
      subst ha
      subst hf
      simp [replay_file, QJsonObject.init, QJsonObject.insert, QJsonValue.toObject,
        QJsonObject.subscript, QJsonObject.lookup, QJsonValue.toString, hfind,
        str_to_type_type_to_str hmap]

theorem filterMap_map_snd {α β : Type} (g : β → Option α) :
    ∀ found : List (α × β), (∀ x ∈ found, g x.2 = some x.1) →
      List.filterMap g (found.map Prod.snd) = found.map Prod.fst
  | [], _ => rfl
  | x :: rest, h => by
    have hx := h x (List.mem_cons_self _ _)
    have hrest := filterMap_map_snd g rest (fun y hy => h y (List.mem_cons_of_mem _ hy))
    simp [List.filterMap_cons, hx, hrest]

/-- Replaying the file records of a fresh scan makes the calls of `add_file` of that scan. -/
theorem replay_scanned_files {map : HashMap String AssetType} (hmap : IsAliasMap map)
    (lookup_map : HashMap String Game) (dir_base media_subdir_name : String)
    (entries : List DirEntry) :
    List.filterMap (replay_file map lookup_map)
        ((entries.filterMap (scan_file map lookup_map dir_base media_subdir_name)).map Prod.snd)
      = (entries.filterMap (scan_file map lookup_map dir_base media_subdir_name)).map Prod.fst := by
  apply filterMap_map_snd
  intro x hx
  obtain ⟨e, _, he⟩ := List.mem_filterMap.1 hx
  exact replay_file_of_scan_file hmap lookup_map dir_base media_subdir_name e x.1 x.2 he

/-- One directory, visited with a cache that extends the cache left by an earlier visit of the
same directory: the directory is found in the cache, and the visit makes the calls of `add_file`
that the earlier visit made. -/
theorem visit_media_dir_again {map : HashMap String AssetType} (hmap : IsAliasMap map)
    (pf : Platform) (lookup_map : HashMap String Game) (st st2 : RunState)
    (dir_base media_subdir_name : String)
    (hpre : (visit_media_dir map pf lookup_map st dir_base media_subdir_name).cached_media_dirs
      <+: st2.cached_media_dirs) :
    ∃ delta,
      (visit_media_dir map pf lookup_map st dir_base media_subdir_name).added
        = st.added ++ delta ∧
      visit_media_dir map pf lookup_map st2 dir_base media_subdir_name
        = ⟨st2.cached_media_dirs, st2.added ++ delta, st2.scanned⟩ := by
  cases hex : pf.dirExists (dir_base ++ media_subdir_name) with
  | false =>
    refine ⟨[], ?_, ?_⟩
    · rw [visit_media_dir_skip map pf lookup_map st _ _ hex]; simp
    · rw [visit_media_dir_skip map pf lookup_map st2 _ _ hex]; simp
  | true =>
    cases hfind : find_cached_dir st.cached_media_dirs (dir_base ++ media_subdir_name) with
    | some cached_dir =>
      rw [visit_media_dir_hit map pf lookup_map st _ _ cached_dir hex hfind] at hpre ⊢
      obtain ⟨ext, hext⟩ := hpre
      have hfind2 : find_cached_dir st2.cached_media_dirs (dir_base ++ media_subdir_name)
          = some cached_dir := by
        rw [← hext]
        exact find_cached_dir_append_of_some _ _ _ _ hfind
      exact ⟨_, rfl, visit_media_dir_hit map pf lookup_map st2 _ _ cached_dir hex hfind2⟩
    | none =>
      rw [visit_media_dir_miss map pf lookup_map st _ _ hex hfind] at hpre ⊢
      obtain ⟨ext, hext⟩ := hpre
      simp only [List.append_assoc, List.singleton_append] at hext
      have hfind2 := find_cached_dir_append_of_none st.cached_media_dirs
        (.object (QJsonObject.init
          [ ("dir_path", .string (dir_base ++ media_subdir_name)),
            ("last_scan_time", .string (pf.currentDateTime (dir_base ++ media_subdir_name))),
            ("files", .array (((pf.dirEntries (dir_base ++ media_subdir_name)).filterMap
              (scan_file map lookup_map dir_base media_subdir_name)).map Prod.snd)) ]) :: ext)
        (dir_base ++ media_subdir_name) hfind
      rw [hext, find_cached_dir_new_dir] at hfind2
      refine ⟨_, rfl, ?_⟩
      rw [visit_media_dir_hit map pf lookup_map st2 _ _ _ hex hfind2]
      have hfiles : (QJsonObject.subscript
          [("dir_path", QJsonValue.string (dir_base ++ media_subdir_name)),
            ("last_scan_time", .string (pf.currentDateTime (dir_base ++ media_subdir_name))),
            ("files", .array (((pf.dirEntries (dir_base ++ media_subdir_name)).filterMap
              (scan_file map lookup_map dir_base media_subdir_name)).map Prod.snd))]
          "files").2.toArray
          = ((pf.dirEntries (dir_base ++ media_subdir_name)).filterMap
              (scan_file map lookup_map dir_base media_subdir_name)).map Prod.snd := by
        simp [QJsonObject.subscript, QJsonObject.lookup, QJsonValue.toArray]
      rw [hfiles, replay_scanned_files hmap]

/-- The directory loop, run again with a cache that extends the cache it left: nothing is
enumerated, nothing is appended, and the same calls of `add_file` are made. -/
theorem visit_game_dirs_again {map : HashMap String AssetType} (hmap : IsAliasMap map)
    (pf : Platform) (lookup_map : HashMap String Game) (game_dirs : List String) :
    ∀ st st2 : RunState,
      (visit_game_dirs map pf lookup_map st game_dirs).cached_media_dirs
        <+: st2.cached_media_dirs →
      ∃ delta,
        (visit_game_dirs map pf lookup_map st game_dirs).added = st.added ++ delta ∧
        visit_game_dirs map pf lookup_map st2 game_dirs
          = ⟨st2.cached_media_dirs, st2.added ++ delta, st2.scanned⟩ := by
  induction game_dirs with
  | nil =>
    intro st st2 _
    exact ⟨[], by simp [visit_game_dirs], by simp [visit_game_dirs]⟩
  | cons dir_base rest ih =>
    intro st st2 hpre
    rw [visit_game_dirs_cons] at hpre
    obtain ⟨d1, h1, h2⟩ := visit_media_dir_again hmap pf lookup_map st st2 dir_base "/media"
      ((visit_game_dirs_extends map pf lookup_map rest _).trans hpre)
    obtain ⟨d2, h3, h4⟩ := ih (visit_media_dir map pf lookup_map st dir_base "/media")
      ⟨st2.cached_media_dirs, st2.added ++ d1, st2.scanned⟩ hpre
    refine ⟨d1 ++ d2, ?_, ?_⟩
    · rw [visit_game_dirs_cons, h3, h1, List.append_assoc]
    · rw [visit_game_dirs_cons, h2, h4, List.append_assoc]

/-- After the directory loop, every media directory that exists has a record in the cache. -/
theorem visit_game_dirs_cached (map : HashMap String AssetType) (pf : Platform)
    (lookup_map : HashMap String Game) (game_dirs : List String) :
    ∀ st : RunState, ∀ dir_base ∈ game_dirs, pf.dirExists (dir_base ++ "/media") = true →
      (find_cached_dir (visit_game_dirs map pf lookup_map st game_dirs).cached_media_dirs
        (dir_base ++ "/media")).isSome = true := by
  induction game_dirs with
  | nil => intro st dir_base hmem; simp at hmem
  | cons head rest ih =>
    intro st dir_base hmem hex
    rw [visit_game_dirs_cons]
    rcases List.mem_cons.1 hmem with hd | hd
    · subst hd
      have hone : (find_cached_dir
          (visit_media_dir map pf lookup_map st dir_base "/media").cached_media_dirs
          (dir_base ++ "/media")).isSome = true := by
        cases hfind : find_cached_dir st.cached_media_dirs (dir_base ++ "/media") with
        | some cached_dir =>
          rw [visit_media_dir_hit map pf lookup_map st _ _ cached_dir hex hfind]
          simp [hfind]
        | none =>
          rw [visit_media_dir_miss map pf lookup_map st _ _ hex hfind]
          simp only []
          rw [find_cached_dir_append_of_none _ _ _ hfind, find_cached_dir_new_dir]
          rfl
      obtain ⟨r, hr⟩ := Option.isSome_iff_exists.1 hone
      obtain ⟨ext, hext⟩ := visit_game_dirs_extends map pf lookup_map rest
        (visit_media_dir map pf lookup_map st dir_base "/media")
      rw [← hext, find_cached_dir_append_of_some _ _ _ _ hr]
      rfl
    · exact ih _ dir_base hd hex

/-! ## Two runs in succession -/

/-- The list `cached_media_dirs` at the end of the directory loop of `run`. -/
theorem run_m_cache_data (map : HashMap String AssetType) (pf : Platform) (sctx : SearchContext)
    (file : Option QByteArray) :
    (run map pf sctx file).m_cache_data =
      QJsonObject.insert (QJsonObject.subscript (load_cache pf.fromJson file) "media_dirs").1
        "media_dirs"
        (.array (visit_game_dirs map pf
          (create_lookup_map pf.fileInfo sctx.current_filepath_to_entry_map)
          ⟨(QJsonObject.subscript (load_cache pf.fromJson file) "media_dirs").2.toArray, [], []⟩
          sctx.pegasus_game_dirs).cached_media_dirs) := rfl

theorem run_eq (map : HashMap String AssetType) (pf : Platform) (sctx : SearchContext)
    (file : Option QByteArray) (m0 m : QJsonObject) (L : QJsonArray) (st : RunState)
    (h0 : load_cache pf.fromJson file = m0)
    (hs : QJsonObject.subscript m0 "media_dirs" = (m, .array L))
    (hv : visit_game_dirs map pf
      (create_lookup_map pf.fileInfo sctx.current_filepath_to_entry_map) ⟨L, [], []⟩
      sctx.pegasus_game_dirs = st) :
    run map pf sctx file =
      ⟨st.added, QJsonObject.insert m "media_dirs" (.array st.cached_media_dirs),
        save_cache pf (QJsonObject.insert m "media_dirs" (.array st.cached_media_dirs)) file,
        st.scanned⟩ := by
  subst h0
  subst hv
  simp [run, hs, QJsonValue.toArray]

theorem lookup_version_run (map : HashMap String AssetType) (pf : Platform)
    (sctx : SearchContext) (file : Option QByteArray) :
    QJsonObject.lookup (run map pf sctx file).m_cache_data "version" = some (.string "1.0") := by
  rw [run_m_cache_data, QJsonObject.lookup_insert_of_ne _ _ _ _ (by decide),
    QJsonObject.lookup_subscript_of_ne _ _ _ (by decide)]
  exact lookup_version_load_cache pf.fromJson file

/-- A run that starts from the cache file written by a run on the same collection and the same
file system loads the cache that was saved, enumerates no directory, leaves the cache file as it
is and makes the same calls of `add_file`. -/
theorem run_again {map : HashMap String AssetType} (hmap : IsAliasMap map) (pf : Platform)
    (sctx : SearchContext) (file : Option QByteArray) (hsave : pf.canWrite = true)
    (hparse : pf.fromJson (pf.toJson (.ofObject (run map pf sctx file).m_cache_data))
      = .ofObject (run map pf sctx file).m_cache_data) :
    load_cache pf.fromJson (run map pf sctx file).file = (run map pf sctx file).m_cache_data ∧
    run map pf sctx (run map pf sctx file).file =
      ⟨(run map pf sctx file).added, (run map pf sctx file).m_cache_data,
        (run map pf sctx file).file, []⟩ := by
  have hfile : (run map pf sctx file).file
      = some (pf.toJson (.ofObject (run map pf sctx file).m_cache_data)) := by
    simp [run, save_cache, hsave]
  have hload : load_cache pf.fromJson (run map pf sctx file).file
      = (run map pf sctx file).m_cache_data := by
    rw [hfile, load_cache_of_version pf.fromJson _ (by rw [hparse]; rfl)
      (by rw [hparse]; exact lookup_version_run map pf sctx file), hparse]
    rfl
  refine ⟨hload, ?_⟩
  have hsub : QJsonObject.subscript (run map pf sctx file).m_cache_data "media_dirs"
      = ((run map pf sctx file).m_cache_data,
          .array (visit_game_dirs map pf
            (create_lookup_map pf.fileInfo sctx.current_filepath_to_entry_map)
            ⟨(QJsonObject.subscript (load_cache pf.fromJson file) "media_dirs").2.toArray, [], []⟩
            sctx.pegasus_game_dirs).cached_media_dirs) := by
    apply QJsonObject.subscript_of_lookup
    rw [run_m_cache_data]
    exact QJsonObject.lookup_insert_self _ _ _
  obtain ⟨delta, hd1, hd2⟩ := visit_game_dirs_again hmap pf
    (create_lookup_map pf.fileInfo sctx.current_filepath_to_entry_map) sctx.pegasus_game_dirs
    ⟨(QJsonObject.subscript (load_cache pf.fromJson file) "media_dirs").2.toArray, [], []⟩
    ⟨(visit_game_dirs map pf
        (create_lookup_map pf.fileInfo sctx.current_filepath_to_entry_map)
        ⟨(QJsonObject.subscript (load_cache pf.fromJson file) "media_dirs").2.toArray, [], []⟩
        sctx.pegasus_game_dirs).cached_media_dirs, [], []⟩
    (List.prefix_refl _)
  have hadded : (run map pf sctx file).added = delta := by
    simpa [run] using hd1
  have hins : QJsonObject.insert (run map pf sctx file).m_cache_data "media_dirs"
      (.array (visit_game_dirs map pf
        (create_lookup_map pf.fileInfo sctx.current_filepath_to_entry_map)
        ⟨(QJsonObject.subscript (load_cache pf.fromJson file) "media_dirs").2.toArray, [], []⟩
        sctx.pegasus_game_dirs).cached_media_dirs)
      = (run map pf sctx file).m_cache_data := by
    rw [run_m_cache_data, QJsonObject.insert_insert]
  have hd2' : visit_game_dirs map pf
      (create_lookup_map pf.fileInfo sctx.current_filepath_to_entry_map)
      ⟨(visit_game_dirs map pf
        (create_lookup_map pf.fileInfo sctx.current_filepath_to_entry_map)
        ⟨(QJsonObject.subscript (load_cache pf.fromJson file) "media_dirs").2.toArray, [], []⟩
        sctx.pegasus_game_dirs).cached_media_dirs, [], []⟩ sctx.pegasus_game_dirs
      = ⟨(visit_game_dirs map pf
        (create_lookup_map pf.fileInfo sctx.current_filepath_to_entry_map)
        ⟨(QJsonObject.subscript (load_cache pf.fromJson file) "media_dirs").2.toArray, [], []⟩
        sctx.pegasus_game_dirs).cached_media_dirs, delta, []⟩ := by
    simpa using hd2
  rw [run_eq map pf sctx (run map pf sctx file).file _ _ _ _ hload hsub hd2']
  simp only [hins, save_cache, hsave, if_true, hadded, hfile]

/-! ## The cache-hit path -/

theorem QJsonObject.subscript_subscript_snd (o : QJsonObject) (key k : String) (hne : key ≠ k) :
    (QJsonObject.subscript (QJsonObject.subscript o key).1 k).2 = (QJsonObject.subscript o k).2 := by
  rw [QJsonObject.subscript_snd, QJsonObject.subscript_snd,
    QJsonObject.lookup_subscript_of_ne o key k hne]

/-- The cache-hit loop body in terms of the three values it reads of the file record. -/
theorem replay_file_eq (map : HashMap String AssetType) (lookup_map : HashMap String Game)
    (item : QJsonValue) :
    replay_file map lookup_map item =
      match HashMap.find lookup_map (cached_game_key item) with
      | none => none
      | some game =>
        some (game, str_to_type map (cached_asset_type item), cached_file_path item) := by
  unfold replay_file cached_game_key cached_asset_type cached_file_path
  simp only []
  rw [QJsonObject.subscript_subscript_snd _ "file_path" "game_key" (by decide),
    QJsonObject.subscript_subscript_snd _ "game_key" "asset_type" (by decide),
    QJsonObject.subscript_subscript_snd _ "file_path" "asset_type" (by decide)]

theorem visit_game_dirs_fixed (map : HashMap String AssetType) (pf : Platform)
    (lookup_map : HashMap String Game) (st : RunState) (game_dirs : List String)
    (h : ∀ dir_base ∈ game_dirs, visit_media_dir map pf lookup_map st dir_base "/media" = st) :
    visit_game_dirs map pf lookup_map st game_dirs = st := by
  induction game_dirs with
  | nil => rfl
  | cons dir_base rest ih =>
    rw [visit_game_dirs_cons, h dir_base (List.mem_cons_self _ _)]
    exact ih (fun b hb => h b (List.mem_cons_of_mem _ hb))

theorem media_dirs_insert (m : QJsonObject) (L : QJsonArray) :
    media_dirs (QJsonObject.insert m "media_dirs" (.array L)) = L := by
  unfold media_dirs
  rw [QJsonObject.subscript_snd, QJsonObject.lookup_insert_self]
  rfl

/-- The `media_dirs` list of the cache that `run` leaves is the list at the end of the directory
loop. -/
theorem media_dirs_run (map : HashMap String AssetType) (pf : Platform) (sctx : SearchContext)
    (file : Option QByteArray) :
    media_dirs (run map pf sctx file).m_cache_data =
      (visit_game_dirs map pf
        (create_lookup_map pf.fileInfo sctx.current_filepath_to_entry_map)
        ⟨media_dirs (load_cache pf.fromJson file), [], []⟩
        sctx.pegasus_game_dirs).cached_media_dirs := by
  rw [run_m_cache_data, media_dirs_insert]
  rfl

theorem added_run (map : HashMap String AssetType) (pf : Platform) (sctx : SearchContext)
    (file : Option QByteArray) :
    (run map pf sctx file).added =
      (visit_game_dirs map pf
        (create_lookup_map pf.fileInfo sctx.current_filepath_to_entry_map)
        ⟨media_dirs (load_cache pf.fromJson file), [], []⟩
        sctx.pegasus_game_dirs).added := rfl

theorem scanned_run (map : HashMap String AssetType) (pf : Platform) (sctx : SearchContext)
    (file : Option QByteArray) :
    (run map pf sctx file).scanned =
      (visit_game_dirs map pf
        (create_lookup_map pf.fileInfo sctx.current_filepath_to_entry_map)
        ⟨media_dirs (load_cache pf.fromJson file), [], []⟩
        sctx.pegasus_game_dirs).scanned := rfl

theorem filterMap_replay_unresolved (map : HashMap String AssetType)
    (lookup_map : HashMap String Game) (files : QJsonArray)
    (h : ∀ item ∈ files, HashMap.find lookup_map (cached_game_key item) = none) :
    List.filterMap (replay_file map lookup_map) files = [] := by
  rw [List.filterMap_eq_nil_iff]
  intro item hitem
  rw [replay_file_eq, h item hitem]

/-- The cache-miss loop body, case by case. -/
theorem scan_file_eq (map : HashMap String AssetType) (lookup_map : HashMap String Game)
    (dir_base media_subdir_name : String) (e : DirEntry) :
    scan_file map lookup_map dir_base media_subdir_name e =
      match HashMap.find lookup_map (scan_lookup_key dir_base media_subdir_name e) with
      | none => none
      | some game =>
        if detect_asset_type map e.fileInfo.completeBaseName e.fileInfo.suffix = .UNKNOWN
        then none
        else some
          ((game, detect_asset_type map e.fileInfo.completeBaseName e.fileInfo.suffix,
              e.filePath),
            .object
              [ ("file_path", .string e.filePath),
                ("asset_type", .string (type_to_str
                  (detect_asset_type map e.fileInfo.completeBaseName e.fileInfo.suffix))),
                ("mtime", .number e.fileInfo.lastModified),
                ("size", .number e.fileInfo.size),
                ("game_key", .string (scan_lookup_key dir_base media_subdir_name e)) ]) := by
  unfold scan_file scan_lookup_key
  simp only []
  cases HashMap.find lookup_map
    (QString.remove e.fileInfo.clean_abs_dir dir_base.length media_subdir_name.length) with
  | none => rfl
  | some game =>
    simp [QJsonObject.init, QJsonObject.insert]

/-- When every existing media directory of the roots has a record in the cache, the directory
loop does not depend on the content of the directories nor on the clock, and it leaves the list
of directory records as it is. -/
theorem visit_game_dirs_all_hit (map : HashMap String AssetType) (pf : Platform)
    (lookup_map : HashMap String Game) (dirEntries : String → List DirEntry)
    (currentDateTime : String → String) (game_dirs : List String) :
    ∀ st : RunState,
      (∀ dir_base ∈ game_dirs, pf.dirExists (dir_base ++ "/media") = true →
        (find_cached_dir st.cached_media_dirs (dir_base ++ "/media")).isSome = true) →
      visit_game_dirs map (pf.withFiles dirEntries currentDateTime) lookup_map st game_dirs
        = visit_game_dirs map pf lookup_map st game_dirs ∧
      (visit_game_dirs map pf lookup_map st game_dirs).cached_media_dirs
        = st.cached_media_dirs ∧
      (visit_game_dirs map pf lookup_map st game_dirs).scanned = st.scanned := by
  induction game_dirs with
  | nil => intro st _; exact ⟨rfl, rfl, rfl⟩
  | cons dir_base rest ih =>
    intro st hall
    have hstep : visit_media_dir map (pf.withFiles dirEntries currentDateTime) lookup_map st
          dir_base "/media" = visit_media_dir map pf lookup_map st dir_base "/media" ∧
        (visit_media_dir map pf lookup_map st dir_base "/media").cached_media_dirs
          = st.cached_media_dirs ∧
        (visit_media_dir map pf lookup_map st dir_base "/media").scanned = st.scanned := by
      cases hex : pf.dirExists (dir_base ++ "/media") with
      | false =>
        rw [visit_media_dir_skip map pf lookup_map st _ _ hex,
          visit_media_dir_skip map (pf.withFiles dirEntries currentDateTime) lookup_map st _ _
            hex]
        exact ⟨rfl, rfl, rfl⟩
      | true =>
        obtain ⟨cached_dir, hfind⟩ := Option.isSome_iff_exists.1
          (hall dir_base (List.mem_cons_self _ _) hex)
        rw [visit_media_dir_hit map pf lookup_map st _ _ cached_dir hex hfind,
          visit_media_dir_hit map (pf.withFiles dirEntries currentDateTime) lookup_map st _ _
            cached_dir hex hfind]
        exact ⟨rfl, rfl, rfl⟩
    obtain ⟨h1, h2, h3⟩ := hstep
    have hrest := ih (visit_media_dir map pf lookup_map st dir_base "/media")
      (by
        intro b hb hex
        rw [h2]
        exact hall b (List.mem_cons_of_mem _ hb) hex)
    rw [visit_game_dirs_cons, visit_game_dirs_cons, h1]
    exact ⟨hrest.1, hrest.2.1.trans h2, hrest.2.2.trans h3⟩

/-! ## The list of directory records -/

theorem find_cached_dir_eq_none_iff (L : QJsonArray) (media_dir : String) :
    find_cached_dir L media_dir = none ↔ ∀ item ∈ L, cached_dir_path item ≠ media_dir := by
  induction L with
  | nil => simp [find_cached_dir]
  | cons item rest ih =>
    by_cases hd : (QJsonObject.subscript item.toObject "dir_path").2.toString = media_dir
    · simp [find_cached_dir, cached_dir_path, hd]
    · have hd2 : ¬ cached_dir_path item = media_dir := hd
      simp [find_cached_dir, hd, hd2, ih]

theorem cached_dir_path_new_dir (media_dir time : String) (files : QJsonArray) :
    cached_dir_path (.object (QJsonObject.init [("dir_path", .string media_dir),
      ("last_scan_time", .string time), ("files", .array files)])) = media_dir := by
  simp [cached_dir_path, QJsonObject.init, QJsonObject.insert, QJsonValue.toObject,
    QJsonObject.subscript, QJsonObject.lookup, QJsonValue.toString]

/-- What one visit does to the list of directory records: it appends nothing, or one record of a
directory that is enumerated and whose path is the `dir_path` of no record of the list. -/
theorem visit_media_dir_appended (map : HashMap String AssetType) (pf : Platform)
    (lookup_map : HashMap String Game) (st : RunState) (dir_base media_subdir_name : String) :
    ∃ ext : QJsonArray,
      (visit_media_dir map pf lookup_map st dir_base media_subdir_name).cached_media_dirs
        = st.cached_media_dirs ++ ext ∧
      (visit_media_dir map pf lookup_map st dir_base media_subdir_name).scanned
        = st.scanned ++ ext.map cached_dir_path ∧
      (ext.map cached_dir_path).Nodup ∧
      (∀ x ∈ ext, cached_dir_path x ∉ st.cached_media_dirs.map cached_dir_path) := by
  cases hex : pf.dirExists (dir_base ++ media_subdir_name) with
  | false =>
    rw [visit_media_dir_skip map pf lookup_map st _ _ hex]
    exact ⟨[], by simp, by simp, by simp, by simp⟩
  | true =>
    cases hfind : find_cached_dir st.cached_media_dirs (dir_base ++ media_subdir_name) with
    | some cached_dir =>
      rw [visit_media_dir_hit map pf lookup_map st _ _ cached_dir hex hfind]
      exact ⟨[], by simp, by simp, by simp, by simp⟩
    | none =>
      rw [visit_media_dir_miss map pf lookup_map st _ _ hex hfind]
      refine ⟨[_], rfl, ?_, by simp, ?_⟩
      · simp [cached_dir_path_new_dir]
      · intro x hx
        rw [List.mem_singleton.1 hx, cached_dir_path_new_dir]
        intro hmem
        obtain ⟨item, hitem, hpath⟩ := List.mem_map.1 hmem
        exact (find_cached_dir_eq_none_iff _ _).1 hfind item hitem hpath

/-- What the directory loop does to the list of directory records: it appends records of the
directories it enumerates, in order, with distinct paths of which none is the `dir_path` of a
record that was in the list. -/
theorem visit_game_dirs_appended (map : HashMap String AssetType) (pf : Platform)
    (lookup_map : HashMap String Game) (game_dirs : List String) :
    ∀ st : RunState, ∃ ext : QJsonArray,
      (visit_game_dirs map pf lookup_map st game_dirs).cached_media_dirs
        = st.cached_media_dirs ++ ext ∧
      (visit_game_dirs map pf lookup_map st game_dirs).scanned
        = st.scanned ++ ext.map cached_dir_path ∧
      (ext.map cached_dir_path).Nodup ∧
      (∀ x ∈ ext, cached_dir_path x ∉ st.cached_media_dirs.map cached_dir_path) := by
  induction game_dirs with
  | nil =>
    intro st
    exact ⟨[], by simp [visit_game_dirs], by simp [visit_game_dirs], by simp, by simp⟩
  | cons dir_base rest ih =>
    intro st
    obtain ⟨e1, hc1, hs1, hn1, hd1⟩ :=
      visit_media_dir_appended map pf lookup_map st dir_base "/media"
    obtain ⟨e2, hc2, hs2, hn2, hd2⟩ := ih (visit_media_dir map pf lookup_map st dir_base "/media")
    rw [visit_game_dirs_cons]
    refine ⟨e1 ++ e2, ?_, ?_, ?_, ?_⟩
    · rw [hc2, hc1, List.append_assoc]
    · rw [hs2, hs1, List.map_append, List.append_assoc]
    · rw [List.map_append, List.nodup_append]
      refine ⟨hn1, hn2, ?_⟩
      intro a ha1 ha2
      obtain ⟨x, hx, hxa⟩ := List.mem_map.1 ha2
      apply hd2 x hx
      rw [hc1, List.map_append, hxa]
      exact List.mem_append_right _ ha1
    · intro x hx
      rcases List.mem_append.1 hx with h | h
      · exact hd1 x h
      · intro hmem
        apply hd2 x h
        rw [hc1, List.map_append]
        exact List.mem_append_left _ hmem

/-! ## Aliases that are prefixes of one another, and the lookup key -/

/-- In the table, an alias that is a prefix of another alias has the category of that alias, or
is `box`. -/
theorem alias_prefix_pairs :
    ∀ p ∈ alias_entries, ∀ q ∈ alias_entries, startsWith q.1 p.1 = true →
      p.2 = q.2 ∨ p.1 = "box" := by
  decide

theorem startsWith_iff (str s : String) : startsWith str s = true ↔ s.data <+: str.data := by
  unfold startsWith
  exact List.isPrefixOf_iff_prefix

/-- Two aliases of the table that are prefixes of one token have the same category, unless one
of them is `box`. -/
theorem alias_prefixes_agree (token : String) (p q : String × AssetType)
    (hp : p ∈ alias_entries) (hq : q ∈ alias_entries)
    (hpt : startsWith token p.1 = true) (hqt : startsWith token q.1 = true) :
    p.2 = q.2 ∨ p.1 = "box" ∨ q.1 = "box" := by
  rcases List.prefix_or_prefix_of_prefix ((startsWith_iff _ _).1 hpt)
    ((startsWith_iff _ _).1 hqt) with h | h
  · rcases alias_prefix_pairs p hp q hq ((startsWith_iff _ _).2 h) with e | e
    · exact Or.inl e
    · exact Or.inr (Or.inl e)
  · rcases alias_prefix_pairs q hq p hp ((startsWith_iff _ _).2 h) with e | e
    · exact Or.inl e.symm
    · exact Or.inr (Or.inr e)

/-- A token that does not start with `box` is classified in the same way in every iteration
order of the map. -/
theorem str_to_type_order_independent {map1 map2 : HashMap String AssetType}
    (h1 : IsAliasMap map1) (h2 : IsAliasMap map2) (token : String)
    (hbox : startsWith token "box" = false) :
    str_to_type map1 token = str_to_type map2 token := by
  by_cases hex : ∃ p ∈ alias_entries, p.1 = token
  · obtain ⟨p, hp, hpt⟩ := hex
    subst hpt
    rw [@str_to_type_of_alias map1 h1 p.1 p.2 hp, @str_to_type_of_alias map2 h2 p.1 p.2 hp]
  · have hne : ∀ p ∈ alias_entries, p.1 ≠ token := fun p hp e => hex ⟨p, hp, e⟩
    by_cases hpre : ∃ p ∈ alias_entries, startsWith token p.1 = true
    · obtain ⟨p, hp, hpt⟩ := hpre
      have hall : ∀ q ∈ alias_entries, startsWith token q.1 = true → q.2 = p.2 := by
        intro q hq hqt
        rcases alias_prefixes_agree token q p hq hp hqt hpt with e | e | e
        · exact e
        · rw [e, hbox] at hqt
          exact Bool.noConfusion hqt
        · rw [e, hbox] at hpt
          exact Bool.noConfusion hpt
      rw [str_to_type_of_agreeing_prefixes h1 hne ⟨p, hp, hpt⟩ hall,
        str_to_type_of_agreeing_prefixes h2 hne ⟨p, hp, hpt⟩ hall]
    · have hno : ∀ p ∈ alias_entries, p.1 ≠ token ∧ startsWith token p.1 = false := by
        intro p hp
        refine ⟨hne p hp, ?_⟩
        cases hs : startsWith token p.1 with
        | false => rfl
        | true => exact absurd ⟨p, hp, hs⟩ hpre
      rw [str_to_type_of_no_match h1 hno, str_to_type_of_no_match h2 hno]

/-- Removing the six characters of `/media` at the offset of the length of the root. -/
theorem remove_media (R S : String) :
    QString.remove (R ++ "/media" ++ S) R.length "/media".length = R ++ S := by
  have hlen : R.length < (R ++ "/media" ++ S).length := by
    have h6 : "/media".length = 6 := by decide
    simp only [String.length_append, h6]
    omega
  unfold QString.remove
  rw [if_pos hlen]
  apply String.ext
  have h6 : "/media".length = "/media".data.length := rfl
  simp only [String.data_append]
  have e1 : R.length = R.data.length := rfl
  rw [h6, e1, List.append_assoc, List.take_left, ← List.append_assoc, ← List.length_append,
    List.drop_left]

/-- A key that a game file produces resolves in the lookup map. -/
theorem create_lookup_map_find_key (fileInfo : String → QFileInfo)
    (games : HashMap String GameFile) (pair : String × GameFile) (hp : pair ∈ games)
    (key : String)
    (hk : key = extless_path (fileInfo pair.1) ∨
      key = title_path (fileInfo pair.1) pair.2.parentGame) :
    ∃ g, HashMap.find (create_lookup_map fileInfo games) key = some g := by
  cases hf : HashMap.find (create_lookup_map fileInfo games) key with
  | some g => exact ⟨g, rfl⟩
  | none =>
    rw [find_create_lookup_map, HashMap.find_eq_none_iff] at hf
    exact absurd rfl (hf (key, pair.2.parentGame)
      ((mem_lookup_insertions fileInfo games key _).2 ⟨pair, hp, rfl, hk⟩))

/-- A key resolves in the lookup map to the owning game of a game file that produces it. -/
theorem create_lookup_map_find_owner (fileInfo : String → QFileInfo)
    (games : HashMap String GameFile) (key : String) (game : Game)
    (hf : HashMap.find (create_lookup_map fileInfo games) key = some game) :
    ∃ pair ∈ games, pair.2.parentGame = game ∧
      (key = extless_path (fileInfo pair.1) ∨
        key = title_path (fileInfo pair.1) pair.2.parentGame) := by
  rw [find_create_lookup_map] at hf
  exact (mem_lookup_insertions fileInfo games key game).1 (HashMap.mem_of_find _ _ _ hf)

/-! ## The cache-miss path -/

theorem type_to_str_ne_unknown (C : AssetType) (hC : C ≠ .UNKNOWN) :
    type_to_str C ≠ "unknown" := by
  cases C
  case UNKNOWN => exact absurd rfl hC
  all_goals decide

/-- The file records and the calls of `add_file` of a fresh scan: one of each per accepted file,
in enumeration order. -/
theorem scan_files_eq (map : HashMap String AssetType) (lookup_map : HashMap String Game)
    (dir_base media_subdir_name : String) (entries : List DirEntry) :
    (entries.filterMap (scan_file map lookup_map dir_base media_subdir_name)).map Prod.snd
      = (entries.filter (scan_accepts map lookup_map dir_base media_subdir_name)).map
          (fun e => QJsonValue.object
            [ ("file_path", .string e.filePath),
              ("asset_type", .string (type_to_str
                (detect_asset_type map e.fileInfo.completeBaseName e.fileInfo.suffix))),
              ("mtime", .number e.fileInfo.lastModified),
              ("size", .number e.fileInfo.size),
              ("game_key", .string (scan_lookup_key dir_base media_subdir_name e)) ]) ∧
    List.Forall₂
      (fun (e : DirEntry) (a : AddFile) =>
        HashMap.find lookup_map (scan_lookup_key dir_base media_subdir_name e) = some a.1 ∧
        a.2.1 = detect_asset_type map e.fileInfo.completeBaseName e.fileInfo.suffix ∧
        a.2.2 = e.filePath)
      (entries.filter (scan_accepts map lookup_map dir_base media_subdir_name))
      ((entries.filterMap (scan_file map lookup_map dir_base media_subdir_name)).map
        Prod.fst) := by
  induction entries with
  | nil => exact ⟨rfl, List.Forall₂.nil⟩
  | cons e rest ih =>
    cases hfind : HashMap.find lookup_map (scan_lookup_key dir_base media_subdir_name e) with
    | none =>
      have hs : scan_file map lookup_map dir_base media_subdir_name e = none := by
        rw [scan_file_eq, hfind]
      have ha : scan_accepts map lookup_map dir_base media_subdir_name e = false := by
        simp [scan_accepts, hfind]
      simp only [List.filterMap_cons, hs, List.filter_cons, ha]
      exact ih
    | some game =>
      by_cases hu : detect_asset_type map e.fileInfo.completeBaseName e.fileInfo.suffix
          = .UNKNOWN
      · have hs : scan_file map lookup_map dir_base media_subdir_name e = none := by
          rw [scan_file_eq, hfind]
          simp [hu]
        have ha : scan_accepts map lookup_map dir_base media_subdir_name e = false := by
          simp [scan_accepts, hu]
        simp only [List.filterMap_cons, hs, List.filter_cons, ha]
        exact ih
      · have hs := scan_file_eq map lookup_map dir_base media_subdir_name e
        rw [hfind] at hs
        simp only [hu, if_false] at hs
        have ha : scan_accepts map lookup_map dir_base media_subdir_name e = true := by
          simp [scan_accepts, hfind, hu]
        simp only [List.filterMap_cons, hs, List.filter_cons, ha, if_true, List.map_cons]
        exact ⟨by rw [ih.1], List.Forall₂.cons ⟨hfind, rfl, rfl⟩ ih.2⟩

/-! ## Claims on the classifier -/

/-- C1: every alias declared in the static table of `str_to_type` is classified as the category
declared with it, by the exact lookup and in every iteration order of the map, whichever spelling
variant is used; `"boxfront"` is `BOX_FRONT` although the alias `"box"` is a prefix of it. -/
theorem str_to_type_alias_table (map : HashMap String AssetType) (h : IsAliasMap map) :
    (∀ name category, (name, category) ∈ alias_entries →
      HashMap.find map name = some category ∧ str_to_type map name = category) ∧
    (str_to_type map "boxfront" = .BOX_FRONT ∧ str_to_type map "boxFront" = .BOX_FRONT ∧
      str_to_type map "box_front" = .BOX_FRONT ∧ str_to_type map "boxart2D" = .BOX_FRONT ∧
      str_to_type map "boxart2d" = .BOX_FRONT ∧ str_to_type map "box" = .BOX_FULL ∧
      str_to_type map "cart" = .CARTRIDGE ∧ str_to_type map "screenmarquee" = .ARCADE_BEZEL) ∧
    (startsWith "boxfront" "box" = true ∧ ("box", AssetType.BOX_FULL) ∈ map) := by
  refine ⟨fun name category hmem => ⟨find_alias h hmem, str_to_type_of_alias h hmem⟩, ?_, ?_⟩
  · refine ⟨?_, ?_, ?_, ?_, ?_, ?_, ?_, ?_⟩ <;> exact str_to_type_of_alias h (by decide)
  · exact ⟨by decide, (h.mem_iff _).2 (by decide)⟩

/-- C1, at the reversed declaration order and the alias `"boxart2D"`. -/
theorem str_to_type_alias_table_witness :
    IsAliasMap alias_entries.reverse ∧
      str_to_type alias_entries.reverse "boxart2D" = .BOX_FRONT :=
  ⟨List.reverse_perm _,
    ((str_to_type_alias_table alias_entries.reverse (List.reverse_perm _)).1
      "boxart2D" .BOX_FRONT (by decide)).2⟩

/-- C2: a token that no alias of the table equals and of which no alias is a prefix is classified
as `UNKNOWN`, in every iteration order of the map; the matching is case sensitive, so `"foo"`,
`"BOXFRONT"`, `"Logo"`, `"unknown"` and the empty string are all `UNKNOWN`. -/
theorem str_to_type_unknown (map : HashMap String AssetType) (h : IsAliasMap map) :
    (∀ token, (∀ p ∈ alias_entries, p.1 ≠ token ∧ startsWith token p.1 = false) →
      str_to_type map token = .UNKNOWN) ∧
    (str_to_type map "foo" = .UNKNOWN ∧ str_to_type map "BOXFRONT" = .UNKNOWN ∧
      str_to_type map "Logo" = .UNKNOWN ∧ str_to_type map "unknown" = .UNKNOWN ∧
      str_to_type map "" = .UNKNOWN) := by
  refine ⟨fun token hno => str_to_type_of_no_match h hno, ?_, ?_, ?_, ?_, ?_⟩ <;>
    exact str_to_type_of_no_match h (by decide)

/-- C2, at the declaration order and the token `"Logo"`. -/
theorem str_to_type_unknown_witness :
    IsAliasMap alias_entries ∧
      (∀ p ∈ alias_entries, p.1 ≠ "Logo" ∧ startsWith "Logo" p.1 = false) ∧
      str_to_type alias_entries "Logo" = .UNKNOWN :=
  ⟨List.Perm.refl _, by decide,
    (str_to_type_unknown alias_entries (List.Perm.refl _)).1 "Logo" (by decide)⟩

/-- C3, as stated, fails: the map may iterate its entries in the reverse of the declaration order;
`"boxfront-alt"` and `"boxback2"` equal no alias, the first declared entry whose alias is a prefix
of them is `"boxfront"` (`BOX_FRONT`) and `"boxback"` (`BOX_BACK`), and `str_to_type` returns
`BOX_FULL` for both, through the alias `"box"`. -/
theorem str_to_type_declaration_order_counterexample :
    IsAliasMap alias_entries.reverse ∧
    HashMap.find alias_entries.reverse "boxfront-alt" = none ∧
    List.find? (fun it => startsWith "boxfront-alt" it.1) alias_entries
      = some ("boxfront", .BOX_FRONT) ∧
    str_to_type alias_entries.reverse "boxfront-alt" = .BOX_FULL ∧
    HashMap.find alias_entries.reverse "boxback2" = none ∧
    List.find? (fun it => startsWith "boxback2" it.1) alias_entries
      = some ("boxback", .BOX_BACK) ∧
    str_to_type alias_entries.reverse "boxback2" = .BOX_FULL ∧
    AssetType.BOX_FULL ≠ AssetType.BOX_FRONT ∧ AssetType.BOX_FULL ≠ AssetType.BOX_BACK :=
  ⟨List.reverse_perm _, by decide, by decide, by decide, by decide, by decide, by decide,
    by decide, by decide⟩

/-- C3, amended: when a token equals no alias, `str_to_type` returns the category of the first
entry, in the iteration order of the map, whose alias is a prefix of the token, and `UNKNOWN` when
there is none; when all the aliases that are prefixes of the token have one category, that
category is returned in every iteration order (`"logo-alt"` is `LOGO`); `"boxfront-alt"` is
`BOX_FRONT` or `BOX_FULL` and `"boxback2"` is `BOX_BACK` or `BOX_FULL`, and they are `BOX_FRONT`
and `BOX_BACK` when the map iterates in declaration order. -/
theorem str_to_type_prefix_fallback (map : HashMap String AssetType) (h : IsAliasMap map) :
    (∀ token, (∀ p ∈ alias_entries, p.1 ≠ token) →
      (str_to_type map token =
        match List.find? (fun it => startsWith token it.1) map with
        | some it => it.2
        | none => .UNKNOWN) ∧
      (∀ c, (∃ p ∈ alias_entries, startsWith token p.1 = true) →
        (∀ p ∈ alias_entries, startsWith token p.1 = true → p.2 = c) →
        str_to_type map token = c)) ∧
    str_to_type map "logo-alt" = .LOGO ∧
    (str_to_type map "boxfront-alt" = .BOX_FRONT ∨ str_to_type map "boxfront-alt" = .BOX_FULL) ∧
    (str_to_type map "boxback2" = .BOX_BACK ∨ str_to_type map "boxback2" = .BOX_FULL) ∧
    (map = alias_entries →
      str_to_type map "boxfront-alt" = .BOX_FRONT ∧ str_to_type map "boxback2" = .BOX_BACK) := by
  have key : ∀ token, (∀ p ∈ alias_entries, p.1 ≠ token) →
      ∀ cs : List AssetType,
        (∀ p ∈ alias_entries, startsWith token p.1 = true → p.2 ∈ cs) →
        (∃ p ∈ alias_entries, startsWith token p.1 = true) →
        str_to_type map token ∈ cs := by
    intro token hne cs hall hex
    rw [str_to_type_of_not_alias h hne]
    cases hf : List.find? (fun it => startsWith token it.1) map with
    | none =>
      obtain ⟨p, hp, hpre⟩ := hex
      have := List.find?_eq_none.1 hf p ((h.mem_iff p).2 hp)
      simp [hpre] at this
    | some it =>
      have hpre := List.find?_some hf
      exact hall it ((h.mem_iff it).1 (List.mem_of_find?_eq_some hf)) hpre
  refine ⟨fun token hne => ⟨str_to_type_of_not_alias h hne, fun c hex hall =>
    str_to_type_of_agreeing_prefixes h hne hex hall⟩, ?_, ?_, ?_, ?_⟩
  · exact str_to_type_of_agreeing_prefixes h (by decide) (by decide) (by decide)
  · have := key "boxfront-alt" (by decide) [.BOX_FRONT, .BOX_FULL] (by decide) (by decide)
    simpa using this
  · have := key "boxback2" (by decide) [.BOX_BACK, .BOX_FULL] (by decide) (by decide)
    simpa using this
  · intro hm
    subst hm
    exact ⟨by decide, by decide⟩

/-- C3 amended, at the reversed declaration order and the token `"wheel_2"`. -/
theorem str_to_type_prefix_fallback_witness :
    IsAliasMap alias_entries.reverse ∧ (∀ p ∈ alias_entries, p.1 ≠ "wheel_2") ∧
      str_to_type alias_entries.reverse "wheel_2" = .LOGO :=
  ⟨List.reverse_perm _, by decide,
    ((str_to_type_prefix_fallback alias_entries.reverse (List.reverse_perm _)).1
      "wheel_2" (by decide)).2 .LOGO (by decide) (by decide)⟩

/-- C4: for each of the 21 categories `C`, `str_to_type (type_to_str C) = C` in every iteration
order of the map, by the exact lookup when `C` is not `UNKNOWN`; so `type_to_str` is injective,
and the token `"unknown"` of `UNKNOWN` is the token of no other category. -/
theorem str_to_type_type_to_str_roundtrip (map : HashMap String AssetType) (h : IsAliasMap map) :
    (∀ C : AssetType, str_to_type map (type_to_str C) = C) ∧
    (∀ C : AssetType, C ≠ .UNKNOWN → HashMap.find map (type_to_str C) = some C) ∧
    (HashMap.find map (type_to_str .UNKNOWN) = none ∧
      List.find? (fun it => startsWith (type_to_str .UNKNOWN) it.1) map = none) ∧
    Function.Injective type_to_str ∧
    type_to_str .UNKNOWN = "unknown" ∧
    (∀ C : AssetType, C ≠ .UNKNOWN → type_to_str C ≠ "unknown") ∧
    (∀ C : AssetType, C ∈ AssetType.all) ∧ AssetType.all.length = 21 := by
  refine ⟨str_to_type_type_to_str h, ?_, ⟨?_, ?_⟩, ?_, rfl, ?_, ?_, rfl⟩
  · intro C hC
    cases C
    case UNKNOWN => exact absurd rfl hC
    all_goals exact find_alias h (by decide)
  · have hno : ∀ p ∈ alias_entries, p.1 ≠ type_to_str .UNKNOWN := by decide
    exact (HashMap.find_eq_none_iff map _).2 (fun p hp => hno p ((h.mem_iff p).1 hp))
  · have hno : ∀ p ∈ alias_entries, ¬ startsWith (type_to_str .UNKNOWN) p.1 = true := by decide
    rw [List.find?_eq_none]
    exact fun p hp => hno p ((h.mem_iff p).1 hp)
  · intro a b hab
    have ha := str_to_type_type_to_str h a
    rw [hab, str_to_type_type_to_str h b] at ha
    exact ha.symm
  · intro C hC
    cases C
    case UNKNOWN => exact absurd rfl hC
    all_goals decide
  · intro C
    cases C <;> decide

/-- C4, at the reversed declaration order. -/
theorem str_to_type_type_to_str_roundtrip_witness :
    IsAliasMap alias_entries.reverse ∧
      str_to_type alias_entries.reverse (type_to_str .UI_STEAMGRID) = .UI_STEAMGRID :=
  ⟨List.reverse_perm _,
    (str_to_type_type_to_str_roundtrip alias_entries.reverse (List.reverse_perm _)).1
      .UI_STEAMGRID⟩

/-- C5: `detect_asset_type basename ext` is `C = str_to_type basename` when `ext` is one of the
extensions allowed for `C`, and `UNKNOWN` otherwise, the allowed extensions being webm, mp4, avi
for `VIDEO`, mp3, ogg, wav for `MUSIC`, none for `UNKNOWN` and png, jpg, webp, apng for every
other category; a result other than `UNKNOWN` always has the extension among those allowed for
it, and `video.png`, `boxfront.mp4` and `logo.PNG` are `UNKNOWN`. -/
theorem detect_asset_type_spec (map : HashMap String AssetType) (h : IsAliasMap map) :
    (∀ C : AssetType, allowed_asset_exts C =
      if C = .VIDEO then ["webm", "mp4", "avi"]
      else if C = .MUSIC then ["mp3", "ogg", "wav"]
      else if C = .UNKNOWN then []
      else ["png", "jpg", "webp", "apng"]) ∧
    (∀ basename ext,
      (ext ∈ allowed_asset_exts (str_to_type map basename) →
        detect_asset_type map basename ext = str_to_type map basename) ∧
      (ext ∉ allowed_asset_exts (str_to_type map basename) →
        detect_asset_type map basename ext = .UNKNOWN) ∧
      (detect_asset_type map basename ext ≠ .UNKNOWN →
        ext ∈ allowed_asset_exts (detect_asset_type map basename ext))) ∧
    (detect_asset_type map "video" "png" = .UNKNOWN ∧
      detect_asset_type map "boxfront" "mp4" = .UNKNOWN ∧
      detect_asset_type map "logo" "PNG" = .UNKNOWN ∧
      detect_asset_type map "video" "mp4" = .VIDEO ∧
      detect_asset_type map "boxfront" "png" = .BOX_FRONT) := by
  refine ⟨fun C => by cases C <;> rfl, fun basename ext => ⟨?_, ?_, ?_⟩, ?_⟩
  · intro hin
    simp [detect_asset_type, hin]
  · intro hout
    simp [detect_asset_type, hout]
  · intro hne
    by_cases hin : ext ∈ allowed_asset_exts (str_to_type map basename)
    · simp [detect_asset_type, hin]
    · exact absurd (by simp [detect_asset_type, hin]) hne
  · have hv : str_to_type map "video" = .VIDEO := str_to_type_of_alias h (by decide)
    have hb : str_to_type map "boxfront" = .BOX_FRONT := str_to_type_of_alias h (by decide)
    have hl : str_to_type map "logo" = .LOGO := str_to_type_of_alias h (by decide)
    refine ⟨?_, ?_, ?_, ?_, ?_⟩
    · simp only [detect_asset_type, hv]; decide
    · simp only [detect_asset_type, hb]; decide
    · simp only [detect_asset_type, hl]; decide
    · simp only [detect_asset_type, hv]; decide
    · simp only [detect_asset_type, hb]; decide

/-- C5, at the reversed declaration order and the file `screenshot.jpg`. -/
theorem detect_asset_type_spec_witness :
    IsAliasMap alias_entries.reverse ∧
      "jpg" ∈ allowed_asset_exts (str_to_type alias_entries.reverse "screenshot") ∧
      detect_asset_type alias_entries.reverse "screenshot" "jpg"
        = str_to_type alias_entries.reverse "screenshot" :=
  ⟨List.reverse_perm _, by decide,
    ((detect_asset_type_spec alias_entries.reverse (List.reverse_perm _)).2.1
      "screenshot" "jpg").1 (by decide)⟩

/-! ## Claims on the lookup map -/

/-- C6: for every input map of game files, the index built by `create_lookup_map` has, for each
game file, the key made of its normalized directory and its complete base name and the key made
of that directory and the title of its owning game; each of the two resolves to the owning game
when no other game file produces the same key; every value of the index is the owning game of an
input game file that produces the key; and a key that no game file produces resolves to
nothing. -/
theorem create_lookup_map_spec (fileInfo : String → QFileInfo) (games : HashMap String GameFile) :
    (∀ pair ∈ games,
      (HashMap.find (create_lookup_map fileInfo games) (extless_path (fileInfo pair.1))).isSome ∧
      (HashMap.find (create_lookup_map fileInfo games)
        (title_path (fileInfo pair.1) pair.2.parentGame)).isSome) ∧
    (∀ pair ∈ games, ∀ key,
      (key = extless_path (fileInfo pair.1) ∨
        key = title_path (fileInfo pair.1) pair.2.parentGame) →
      (∀ other ∈ games, other ≠ pair →
        key ≠ extless_path (fileInfo other.1) ∧
        key ≠ title_path (fileInfo other.1) other.2.parentGame) →
      HashMap.find (create_lookup_map fileInfo games) key = some pair.2.parentGame) ∧
    (∀ key game, HashMap.find (create_lookup_map fileInfo games) key = some game →
      ∃ pair ∈ games, pair.2.parentGame = game ∧
        (key = extless_path (fileInfo pair.1) ∨
          key = title_path (fileInfo pair.1) pair.2.parentGame)) ∧
    (∀ key,
      (∀ pair ∈ games, key ≠ extless_path (fileInfo pair.1) ∧
        key ≠ title_path (fileInfo pair.1) pair.2.parentGame) →
      HashMap.find (create_lookup_map fileInfo games) key = none) := by
  have hsome : ∀ pair ∈ games, ∀ key,
      (key = extless_path (fileInfo pair.1) ∨
        key = title_path (fileInfo pair.1) pair.2.parentGame) →
      ∃ g, HashMap.find (create_lookup_map fileInfo games) key = some g := by
    intro pair hp key hk
    cases hf : HashMap.find (create_lookup_map fileInfo games) key with
    | some g => exact ⟨g, rfl⟩
    | none =>
      rw [find_create_lookup_map, HashMap.find_eq_none_iff] at hf
      exact absurd rfl (hf (key, pair.2.parentGame)
        ((mem_lookup_insertions fileInfo games key _).2 ⟨pair, hp, rfl, hk⟩))
  have hval : ∀ key game, HashMap.find (create_lookup_map fileInfo games) key = some game →
      ∃ pair ∈ games, pair.2.parentGame = game ∧
        (key = extless_path (fileInfo pair.1) ∨
          key = title_path (fileInfo pair.1) pair.2.parentGame) := by
    intro key game hf
    rw [find_create_lookup_map] at hf
    exact (mem_lookup_insertions fileInfo games key game).1 (HashMap.mem_of_find _ _ _ hf)
  refine ⟨?_, ?_, hval, ?_⟩
  · intro pair hp
    obtain ⟨g1, h1⟩ := hsome pair hp _ (Or.inl rfl)
    obtain ⟨g2, h2⟩ := hsome pair hp _ (Or.inr rfl)
    simp [h1, h2]
  · intro pair hp key hk hother
    obtain ⟨g, hg⟩ := hsome pair hp key hk
    obtain ⟨q, hq, hqg, hqk⟩ := hval key g hg
    by_cases e : q = pair
    · rw [hg, ← hqg, e]
    · have := hother q hq e
      rcases hqk with hqk | hqk
      · exact absurd hqk this.1
      · exact absurd hqk this.2
  · intro key hno
    rw [find_create_lookup_map, HashMap.find_eq_none_iff]
    intro p hp
    obtain ⟨q, hq, _, hqk⟩ := (mem_lookup_insertions fileInfo games p.1 p.2).1 hp
    intro e
    rw [e] at hqk
    rcases hqk with hqk | hqk
    · exact (hno q hq).1 hqk
    · exact (hno q hq).2 hqk

/-- C6, at the collision scenario and the game file `/games/a.rom`, whose base-name key `/games/a`
no other game file produces. -/
theorem create_lookup_map_spec_witness :
    HashMap.find (create_lookup_map collision_fileInfo collision_games) "/games/a"
      = some ⟨1, "b"⟩ :=
  (create_lookup_map_spec collision_fileInfo collision_games).2.1
    ("/games/a.rom", ⟨⟨1, "b"⟩⟩) (by decide) "/games/a" (by decide) (by decide)

/-- C7, as stated, fails: in the collision scenario the title key of `a.rom` and the base-name
key of `b.rom` are both `/games/b`; the last insertion made with that key is the one of the game
of `b.rom`, and the index resolves the key to the game of `a.rom`, whose insertion came first. The
same holds when the input map iterates its two entries in the other order. -/
theorem create_lookup_map_last_writer_counterexample :
    lookup_insertions collision_fileInfo collision_games
      = [("/games/a", ⟨1, "b"⟩), ("/games/b", ⟨1, "b"⟩),
         ("/games/b", ⟨2, "Game B"⟩), ("/games/Game B", ⟨2, "Game B"⟩)] ∧
    HashMap.find (create_lookup_map collision_fileInfo collision_games) "/games/b"
      = some ⟨1, "b"⟩ ∧
    HashMap.find (lookup_insertions collision_fileInfo collision_games).reverse "/games/b"
      = some ⟨2, "Game B"⟩ ∧
    HashMap.find (create_lookup_map collision_fileInfo collision_games.reverse) "/games/b"
      = some ⟨2, "Game B"⟩ ∧
    HashMap.find (lookup_insertions collision_fileInfo collision_games.reverse).reverse "/games/b"
      = some ⟨1, "b"⟩ ∧
    (⟨1, "b"⟩ : Game) ≠ ⟨2, "Game B"⟩ := by
  decide

/-- C7, amended: when several insertions of `create_lookup_map` produce the same key, the first
one stays and the later ones change nothing: after the build a key resolves to the game of the
first insertion made with that key. -/
theorem create_lookup_map_first_writer (fileInfo : String → QFileInfo)
    (games : HashMap String GameFile) :
    (∀ key, HashMap.find (create_lookup_map fileInfo games) key
      = HashMap.find (lookup_insertions fileInfo games) key) ∧
    (∀ before after key game,
      lookup_insertions fileInfo games = before ++ (key, game) :: after →
      (∀ p ∈ before, p.1 ≠ key) →
      HashMap.find (create_lookup_map fileInfo games) key = some game) := by
  refine ⟨find_create_lookup_map fileInfo games, ?_⟩
  intro before after key game hsplit hfirst
  rw [find_create_lookup_map, hsplit, HashMap.find_append,
    (HashMap.find_eq_none_iff before key).2 hfirst]
  simp [HashMap.find]

/-- C7 amended, at the collision scenario and the key `/games/b`. -/
theorem create_lookup_map_first_writer_witness :
    HashMap.find (create_lookup_map collision_fileInfo collision_games) "/games/b"
      = some ⟨1, "b"⟩ :=
  (create_lookup_map_first_writer collision_fileInfo collision_games).2
    [("/games/a", ⟨1, "b"⟩)] [("/games/b", ⟨2, "Game B"⟩), ("/games/Game B", ⟨2, "Game B"⟩)]
    "/games/b" ⟨1, "b"⟩ (by decide) (by decide)

/-! ## Claims on the cache file -/

/-- C8: `load_cache` fails soft. When the cache file cannot be opened, or its content does not
parse (the document is null), or the `version` member of the parsed document is not the string
`1.0` (absent, not a string, another string, or the document is an array), the resulting cache is
the empty cache, with version `1.0` and an empty `media_dirs`, whatever else the content held; and
in every case the loaded cache has the version `1.0`. -/
theorem load_cache_fails_soft (fromJson : QByteArray → QJsonDocument)
    (file : Option QByteArray) :
    ((file = none ∨
      ∃ data, file = some data ∧
        ((fromJson data).isNull = true ∨
          QJsonObject.lookup (fromJson data).object "version" ≠ some (.string "1.0"))) →
      load_cache fromJson file = empty_cache) ∧
    (∀ data a, file = some data → fromJson data = .ofArray a →
      load_cache fromJson file = empty_cache) ∧
    (∀ data o s, file = some data → fromJson data = .ofObject o →
      (QJsonObject.lookup o "version" = none ∨
        QJsonObject.lookup o "version" = some (.number 1) ∨
        QJsonObject.lookup o "version" = some .null ∨
        (QJsonObject.lookup o "version" = some (.string s) ∧ s ≠ "1.0")) →
      load_cache fromJson file = empty_cache) ∧
    empty_cache = [("version", .string "1.0"), ("media_dirs", .array [])] ∧
    QJsonObject.lookup (load_cache fromJson file) "version" = some (.string "1.0") ∧
    (QJsonObject.subscript (load_cache fromJson file) "version").2.toString = "1.0" := by
  have main : (file = none ∨
      ∃ data, file = some data ∧
        ((fromJson data).isNull = true ∨
          QJsonObject.lookup (fromJson data).object "version" ≠ some (.string "1.0"))) →
      load_cache fromJson file = empty_cache := by
    rintro (h | ⟨data, h, hbad⟩)
    · subst h; rfl
    · subst h
      rcases hbad with hbad | hbad
      · exact load_cache_of_null fromJson data hbad
      · exact load_cache_of_bad_version fromJson data hbad
  refine ⟨main, ?_, ?_, empty_cache_eq, lookup_version_load_cache fromJson file, ?_⟩
  · intro data a hfile hdoc
    refine main (Or.inr ⟨data, hfile, Or.inr ?_⟩)
    simp [hdoc, QJsonDocument.object, QJsonObject.lookup]
  · intro data o s hfile hdoc hver
    refine main (Or.inr ⟨data, hfile, Or.inr ?_⟩)
    simp only [hdoc, QJsonDocument.object]
    rcases hver with h | h | h | ⟨h, hs⟩
    · simp [h]
    · simp [h]
    · simp [h]
    · simp [h, hs]
  · exact (QJsonObject.subscript_toString_eq_iff _ _ _ (by decide)).2
      (lookup_version_load_cache fromJson file)

/-- C8, at a cache file whose document has the version `2.0` and a directory record. -/
theorem load_cache_fails_soft_witness :
    load_cache
      (fun _ => .ofObject [("version", .string "2.0"),
        ("media_dirs", .array [.object [("dir_path", .string "/games/media")]])])
      (some []) = empty_cache :=
  (load_cache_fails_soft
    (fun _ => .ofObject [("version", .string "2.0"),
      ("media_dirs", .array [.object [("dir_path", .string "/games/media")]])])
    (some [])).1
    (Or.inr ⟨[], rfl, Or.inr (by simp [QJsonDocument.object, QJsonObject.lookup])⟩)

/-! ## Claims on `run` -/

/-- C9: idempotence of the reconcile pass. For every collection, list of root directories, file
system and initial cache file, when `run` is executed twice in succession on them, the first run
saving its cache (the file can be written, and Qt parses what was written back to the document
that was saved), the second run makes the same calls of `add_file` as the first, in the same
order, hence attaches the same set of (game, category, path) associations; it loads the cache
that the first run saved, in which every existing media directory has a record, enumerates no
directory and appends no record. -/
theorem run_idempotent (map : HashMap String AssetType) (hmap : IsAliasMap map) (pf : Platform)
    (sctx : SearchContext) (file : Option QByteArray) (hsave : pf.canWrite = true)
    (hparse : pf.fromJson (pf.toJson (.ofObject (run map pf sctx file).m_cache_data))
      = .ofObject (run map pf sctx file).m_cache_data) :
    (run map pf sctx (run map pf sctx file).file).added = (run map pf sctx file).added ∧
    (∀ a : AddFile, a ∈ (run map pf sctx (run map pf sctx file).file).added ↔
      a ∈ (run map pf sctx file).added) ∧
    (run map pf sctx (run map pf sctx file).file).scanned = [] ∧
    (run map pf sctx (run map pf sctx file).file).m_cache_data
      = (run map pf sctx file).m_cache_data ∧
    load_cache pf.fromJson (run map pf sctx file).file = (run map pf sctx file).m_cache_data ∧
    (∀ dir_base ∈ sctx.pegasus_game_dirs, pf.dirExists (dir_base ++ "/media") = true →
      (find_cached_dir
        (QJsonObject.subscript (run map pf sctx file).m_cache_data "media_dirs").2.toArray
        (dir_base ++ "/media")).isSome = true) := by
  obtain ⟨hload, hrun⟩ := run_again hmap pf sctx file hsave hparse
  refine ⟨by rw [hrun], fun a => by rw [hrun], by rw [hrun], by rw [hrun], hload, ?_⟩
  intro dir_base hmem hex
  have hsub : (QJsonObject.subscript (run map pf sctx file).m_cache_data "media_dirs").2
      = .array (visit_game_dirs map pf
          (create_lookup_map pf.fileInfo sctx.current_filepath_to_entry_map)
          ⟨(QJsonObject.subscript (load_cache pf.fromJson file) "media_dirs").2.toArray, [], []⟩
          sctx.pegasus_game_dirs).cached_media_dirs := by
    rw [QJsonObject.subscript_snd, run_m_cache_data, QJsonObject.lookup_insert_self]
  rw [hsub]
  exact visit_game_dirs_cached map pf _ sctx.pegasus_game_dirs _ dir_base hmem hex

/-- C9, at the end-to-end scenario with the media file `/games/media/foo/boxfront.png` and no
prior cache: the second run attaches the box front of `Foo` again. -/
theorem run_idempotent_witness :
    IsAliasMap alias_entries ∧
    (foo_platform [media_file "/games/media/foo" "boxfront" "png"]
      (.ofObject (foo_cache [foo_boxfront_record]))).canWrite = true ∧
    (run alias_entries
      (foo_platform [media_file "/games/media/foo" "boxfront" "png"]
        (.ofObject (foo_cache [foo_boxfront_record]))) foo_sctx none).m_cache_data
      = foo_cache [foo_boxfront_record] ∧
    (run alias_entries
      (foo_platform [media_file "/games/media/foo" "boxfront" "png"]
        (.ofObject (foo_cache [foo_boxfront_record]))) foo_sctx none).added
      = [(foo_game, .BOX_FRONT, "/games/media/foo/boxfront.png")] ∧
    (run alias_entries
      (foo_platform [media_file "/games/media/foo" "boxfront" "png"]
        (.ofObject (foo_cache [foo_boxfront_record]))) foo_sctx
      (run alias_entries
        (foo_platform [media_file "/games/media/foo" "boxfront" "png"]
          (.ofObject (foo_cache [foo_boxfront_record]))) foo_sctx none).file).added
      = (run alias_entries
        (foo_platform [media_file "/games/media/foo" "boxfront" "png"]
          (.ofObject (foo_cache [foo_boxfront_record]))) foo_sctx none).added :=
  ⟨List.Perm.refl _, rfl, rfl, rfl,
    (run_idempotent alias_entries (List.Perm.refl _)
      (foo_platform [media_file "/games/media/foo" "boxfront" "png"]
        (.ofObject (foo_cache [foo_boxfront_record]))) foo_sctx none rfl rfl).1⟩

/-- C10, as stated, fails: with the game `Foo` owning `/games/foo.rom`, the root `/games`, no
prior cache and the single media file `/games/media/boxfront.png`, the lookup key of the file is
`/games`, which is no key of the index, so `run` makes no call of `add_file` and the record of
`/games/media` in the saved cache has no file record, although `boxfront.png` classifies as
`BOX_FRONT`. -/
theorem run_direct_media_file_counterexample :
    QString.remove "/games/media" "/games".length "/media".length = "/games" ∧
    HashMap.find (create_lookup_map (foo_platform [] .null).fileInfo
      foo_sctx.current_filepath_to_entry_map) "/games" = none ∧
    detect_asset_type alias_entries "boxfront" "png" = .BOX_FRONT ∧
    (run alias_entries (foo_platform [media_file "/games/media" "boxfront" "png"] .null)
      foo_sctx none).added = [] ∧
    (run alias_entries (foo_platform [media_file "/games/media" "boxfront" "png"] .null)
      foo_sctx none).m_cache_data = foo_cache [] ∧
    (run alias_entries (foo_platform [media_file "/games/media" "boxfront" "png"] .null)
      foo_sctx none).file = some [] :=
  ⟨by decide, by decide, by decide, rfl, rfl, rfl⟩

/-- C10, amended: with the game `Foo` owning `/games/foo.rom`, the root `/games`, no prior cache
and the single media file `/games/media/foo/boxfront.png`, `run` attaches `BOX_FRONT` with that
path to `Foo`, and the saved cache holds exactly one directory record, for `/games/media`, with
exactly one file record, of asset type `box_front` and game key `/games/foo`. With the single
media file `/games/media/boxfront.png` instead, nothing is attached and the directory record has
no file record; the same holds for `/games/media/foo/foo.png` and `/games/media/foo.png`, and
`foo` classifies as `UNKNOWN`. This holds in every iteration order of the alias map. -/
theorem run_end_to_end (map : HashMap String AssetType) (hmap : IsAliasMap map) :
    run map (foo_platform [media_file "/games/media/foo" "boxfront" "png"] .null) foo_sctx none
      = ⟨[(foo_game, .BOX_FRONT, "/games/media/foo/boxfront.png")],
          foo_cache [foo_boxfront_record], some [], ["/games/media"]⟩ ∧
    run map (foo_platform [media_file "/games/media" "boxfront" "png"] .null) foo_sctx none
      = ⟨[], foo_cache [], some [], ["/games/media"]⟩ ∧
    run map (foo_platform [media_file "/games/media/foo" "foo" "png"] .null) foo_sctx none
      = ⟨[], foo_cache [], some [], ["/games/media"]⟩ ∧
    run map (foo_platform [media_file "/games/media" "foo" "png"] .null) foo_sctx none
      = ⟨[], foo_cache [], some [], ["/games/media"]⟩ ∧
    str_to_type map "foo" = .UNKNOWN ∧
    foo_cache [foo_boxfront_record] =
      [("version", .string "1.0"),
        ("media_dirs", .array [.object [("dir_path", .string "/games/media"),
          ("last_scan_time", .string "2025-06-15T12:00:00"),
          ("files", .array [.object [("file_path", .string "/games/media/foo/boxfront.png"),
            ("asset_type", .string "box_front"), ("mtime", .number 1750000000),
            ("size", .number 4096), ("game_key", .string "/games/foo")]])]])] := by
  have hfoo : str_to_type map "foo" = .UNKNOWN := str_to_type_of_no_match hmap (by decide)
  have hbox : str_to_type map "boxfront" = .BOX_FRONT := str_to_type_of_alias hmap (by decide)
  have hd1 : detect_asset_type map "boxfront" "png" = .BOX_FRONT := by
    simp only [detect_asset_type, hbox]; decide
  have hd2 : detect_asset_type map "foo" "png" = .UNKNOWN := by
    simp only [detect_asset_type, hfoo]; decide
  have hk1 : QString.remove "/games/media/foo" 6 6 = "/games/foo" := by decide
  have hk2 : QString.remove "/games/media" 6 6 = "/games" := by decide
  have hl1 : "/games".length = 6 := by decide
  have hl2 : "/media".length = 6 := by decide
  refine ⟨?_, ?_, ?_, ?_, hfoo, rfl⟩ <;>
    simp [run, visit_game_dirs, MEDIA_SUBDIRS, visit_media_dir, foo_platform, foo_sctx,
      load_cache, empty_cache_eq, QJsonObject.subscript, QJsonObject.lookup, find_cached_dir,
      scan_file, media_file, create_lookup_map, HashMap.emplace, HashMap.find, extless_path,
      title_path, hk1, hk2, hl1, hl2, hd1, hd2, type_to_str, reverse_map, QJsonObject.init,
      QJsonObject.insert, save_cache, foo_cache, foo_record, foo_boxfront_record, foo_game,
      QJsonValue.toArray, List.filterMap_cons]

/-- C10 amended, at the reversed declaration order of the alias map. -/
theorem run_end_to_end_witness :
    IsAliasMap alias_entries.reverse ∧
    (run alias_entries.reverse
      (foo_platform [media_file "/games/media/foo" "boxfront" "png"] .null) foo_sctx none).added
      = [(foo_game, .BOX_FRONT, "/games/media/foo/boxfront.png")] :=
  ⟨List.reverse_perm _,
    congrArg RunResult.added (run_end_to_end alias_entries.reverse (List.reverse_perm _)).1⟩

/-! ## Claims on the cache-hit path and on skipped directories -/

/-- C11: on the cache-hit path a file record whose `game_key` is no key of the lookup index makes
no call of `add_file`; when none of the game keys of the record of an existing media directory
resolves, the visit of that directory leaves the state of `run` as it is (nothing attached, the
list of directory records unchanged); and when this holds for every existing media directory,
`run` returns with no attachment, no enumeration and the `media_dirs` list that it loaded. -/
theorem run_unresolved_game_keys (map : HashMap String AssetType) (pf : Platform)
    (sctx : SearchContext) (file : Option QByteArray) :
    (∀ (lookup_map : HashMap String Game) (item : QJsonValue),
      HashMap.find lookup_map (cached_game_key item) = none →
      replay_file map lookup_map item = none) ∧
    (∀ (lookup_map : HashMap String Game) (st : RunState) (dir_base : String)
      (cached_dir : QJsonObject),
      pf.dirExists (dir_base ++ "/media") = true →
      find_cached_dir st.cached_media_dirs (dir_base ++ "/media") = some cached_dir →
      (∀ item ∈ cached_files cached_dir,
        HashMap.find lookup_map (cached_game_key item) = none) →
      visit_media_dir map pf lookup_map st dir_base "/media" = st) ∧
    ((∀ dir_base ∈ sctx.pegasus_game_dirs, pf.dirExists (dir_base ++ "/media") = true →
        ∃ cached_dir,
          find_cached_dir (media_dirs (load_cache pf.fromJson file)) (dir_base ++ "/media")
            = some cached_dir ∧
          ∀ item ∈ cached_files cached_dir,
            HashMap.find (create_lookup_map pf.fileInfo sctx.current_filepath_to_entry_map)
              (cached_game_key item) = none) →
      (run map pf sctx file).added = [] ∧
      (run map pf sctx file).scanned = [] ∧
      media_dirs (run map pf sctx file).m_cache_data
        = media_dirs (load_cache pf.fromJson file)) := by
  have hvisit : ∀ (lookup_map : HashMap String Game) (st : RunState) (dir_base : String)
      (cached_dir : QJsonObject),
      pf.dirExists (dir_base ++ "/media") = true →
      find_cached_dir st.cached_media_dirs (dir_base ++ "/media") = some cached_dir →
      (∀ item ∈ cached_files cached_dir,
        HashMap.find lookup_map (cached_game_key item) = none) →
      visit_media_dir map pf lookup_map st dir_base "/media" = st := by
    intro lookup_map st dir_base cached_dir hex hfind hnone
    rw [visit_media_dir_hit map pf lookup_map st _ _ cached_dir hex hfind]
    have := filterMap_replay_unresolved map lookup_map (cached_files cached_dir) hnone
    unfold cached_files at this
    rw [this, List.append_nil]
  refine ⟨?_, hvisit, ?_⟩
  · intro lookup_map item hnone
    rw [replay_file_eq, hnone]
  · intro hall
    have hfix := visit_game_dirs_fixed map pf
      (create_lookup_map pf.fileInfo sctx.current_filepath_to_entry_map)
      ⟨media_dirs (load_cache pf.fromJson file), [], []⟩ sctx.pegasus_game_dirs
      (by
        intro dir_base hmem
        cases hex : pf.dirExists (dir_base ++ "/media") with
        | false => exact visit_media_dir_skip map pf _ _ _ _ hex
        | true =>
          obtain ⟨cached_dir, hfind, hnone⟩ := hall dir_base hmem hex
          exact hvisit _ _ dir_base cached_dir hex hfind hnone)
    rw [added_run, scanned_run, media_dirs_run, hfix]
    exact ⟨rfl, rfl, rfl⟩

/-- C11, at the end-to-end scenario on a later start: the cache has a file record of
`/games/media` with the game key `/games/bar`, and the collection only holds the game `Foo`. -/
theorem run_unresolved_game_keys_witness :
    (run alias_entries
      (foo_platform []
        (.ofObject (foo_cache
          [foo_file_record "/games/media/bar/boxfront.png" "box_front" "/games/bar"])))
      foo_sctx foo_file).added = [] ∧
    media_dirs (run alias_entries
      (foo_platform []
        (.ofObject (foo_cache
          [foo_file_record "/games/media/bar/boxfront.png" "box_front" "/games/bar"])))
      foo_sctx foo_file).m_cache_data
      = [foo_record [foo_file_record "/games/media/bar/boxfront.png" "box_front" "/games/bar"]] :=
  have h := (run_unresolved_game_keys alias_entries
    (foo_platform []
      (.ofObject (foo_cache
        [foo_file_record "/games/media/bar/boxfront.png" "box_front" "/games/bar"])))
    foo_sctx foo_file).2.2
    (by
      intro dir_base hmem hex
      have hd : dir_base = "/games" := by simpa [foo_sctx] using hmem
      subst hd
      refine ⟨[("dir_path", .string "/games/media"),
        ("last_scan_time", .string "2025-06-15T12:00:00"),
        ("files", .array
          [foo_file_record "/games/media/bar/boxfront.png" "box_front" "/games/bar"])],
        rfl, ?_⟩
      intro item hitem
      have hi : item = foo_file_record "/games/media/bar/boxfront.png" "box_front" "/games/bar" :=
        List.mem_singleton.1 hitem
      subst hi
      rfl)
  ⟨h.1, h.2.2⟩

/-- C12: a root directory whose media directory does not exist is skipped: its visit leaves the
state of `run` as it is, so nothing is attached for it and no directory record is added, changed
or removed; and when no configured media directory exists, `run` attaches nothing, enumerates
nothing and saves the `media_dirs` list that it loaded. -/
theorem run_missing_media_dirs (map : HashMap String AssetType) (pf : Platform)
    (sctx : SearchContext) (file : Option QByteArray) :
    (∀ (lookup_map : HashMap String Game) (st : RunState) (dir_base : String),
      pf.dirExists (dir_base ++ "/media") = false →
      visit_media_dir map pf lookup_map st dir_base "/media" = st) ∧
    ((∀ dir_base ∈ sctx.pegasus_game_dirs, pf.dirExists (dir_base ++ "/media") = false) →
      (run map pf sctx file).added = [] ∧
      (run map pf sctx file).scanned = [] ∧
      media_dirs (run map pf sctx file).m_cache_data
        = media_dirs (load_cache pf.fromJson file) ∧
      (run map pf sctx file).file
        = save_cache pf (run map pf sctx file).m_cache_data file) := by
  refine ⟨fun lookup_map st dir_base hex => visit_media_dir_skip map pf _ _ _ _ hex, ?_⟩
  intro hall
  have hfix := visit_game_dirs_fixed map pf
    (create_lookup_map pf.fileInfo sctx.current_filepath_to_entry_map)
    ⟨media_dirs (load_cache pf.fromJson file), [], []⟩ sctx.pegasus_game_dirs
    (fun dir_base hmem => visit_media_dir_skip map pf _ _ _ _ (hall dir_base hmem))
  rw [added_run, scanned_run, media_dirs_run, hfix]
  exact ⟨rfl, rfl, rfl, rfl⟩

/-- C12, at the end-to-end scenario with the root `/other`, whose media directory does not
exist, and a cache that holds a record of `/games/media`. -/
theorem run_missing_media_dirs_witness :
    (run alias_entries (foo_platform [] (.ofObject (foo_cache [foo_boxfront_record])))
      ⟨foo_sctx.current_filepath_to_entry_map, ["/other"]⟩ foo_file).added = [] ∧
    media_dirs (run alias_entries (foo_platform [] (.ofObject (foo_cache [foo_boxfront_record])))
      ⟨foo_sctx.current_filepath_to_entry_map, ["/other"]⟩ foo_file).m_cache_data
      = [foo_record [foo_boxfront_record]] :=
  have h := (run_missing_media_dirs alias_entries
    (foo_platform [] (.ofObject (foo_cache [foo_boxfront_record])))
    ⟨foo_sctx.current_filepath_to_entry_map, ["/other"]⟩ foo_file).2
    (by
      intro dir_base hmem
      have hd : dir_base = "/other" := by simpa using hmem
      subst hd
      rfl)
  ⟨h.1, h.2.2.1⟩

/-- C16: the cache-hit path trusts the cache. For a media directory that exists and has a record
in the cache, the visit of `run` leaves the list of directory records as it is and attaches what
the replay of the file records of that record gives, which depends on the record and on the
lookup index only: two file systems in which the directory exists give the same visit, the record
found in a list is the one found in every extension of the list, and when every existing media
directory has a record in the loaded cache, `run` gives the same result whatever the directories
contain. In particular a cached file that is no longer on disk is still attached. -/
theorem cache_hit_trusts_cache (map : HashMap String AssetType) (hmap : IsAliasMap map) :
    (∀ (pf1 pf2 : Platform) (lookup_map : HashMap String Game) (st : RunState)
      (dir_base : String) (cached_dir : QJsonObject),
      pf1.dirExists (dir_base ++ "/media") = true →
      pf2.dirExists (dir_base ++ "/media") = true →
      find_cached_dir st.cached_media_dirs (dir_base ++ "/media") = some cached_dir →
      visit_media_dir map pf1 lookup_map st dir_base "/media"
        = visit_media_dir map pf2 lookup_map st dir_base "/media" ∧
      visit_media_dir map pf1 lookup_map st dir_base "/media"
        = ⟨st.cached_media_dirs,
            st.added ++ List.filterMap (replay_file map lookup_map) (cached_files cached_dir),
            st.scanned⟩) ∧
    (∀ (L ext : QJsonArray) (media_dir : String) (cached_dir : QJsonObject),
      find_cached_dir L media_dir = some cached_dir →
      find_cached_dir (L ++ ext) media_dir = some cached_dir) ∧
    (∀ (pf : Platform) (sctx : SearchContext) (file : Option QByteArray)
      (dirEntries : String → List DirEntry) (currentDateTime : String → String),
      (∀ dir_base ∈ sctx.pegasus_game_dirs, pf.dirExists (dir_base ++ "/media") = true →
        (find_cached_dir (media_dirs (load_cache pf.fromJson file))
          (dir_base ++ "/media")).isSome = true) →
      run map (pf.withFiles dirEntries currentDateTime) sctx file = run map pf sctx file ∧
      (run map pf sctx file).scanned = [] ∧
      media_dirs (run map pf sctx file).m_cache_data
        = media_dirs (load_cache pf.fromJson file)) ∧
    (run map (foo_platform [] (.ofObject (foo_cache [foo_boxfront_record]))) foo_sctx
      foo_file).added = [(foo_game, .BOX_FRONT, "/games/media/foo/boxfront.png")] := by
  refine ⟨?_, find_cached_dir_append_of_some, ?_, ?_⟩
  · intro pf1 pf2 lookup_map st dir_base cached_dir h1 h2 hfind
    rw [visit_media_dir_hit map pf1 lookup_map st _ _ cached_dir h1 hfind,
      visit_media_dir_hit map pf2 lookup_map st _ _ cached_dir h2 hfind]
    exact ⟨rfl, rfl⟩
  · intro pf sctx file dirEntries currentDateTime hall
    obtain ⟨h1, h2, h3⟩ := visit_game_dirs_all_hit map pf
      (create_lookup_map pf.fileInfo sctx.current_filepath_to_entry_map) dirEntries
      currentDateTime sctx.pegasus_game_dirs
      ⟨media_dirs (load_cache pf.fromJson file), [], []⟩ hall
    refine ⟨?_, ?_, ?_⟩
    · have hrun : ∀ q : Platform, q.fromJson = pf.fromJson → q.toJson = pf.toJson →
          q.fileInfo = pf.fileInfo → q.canWrite = pf.canWrite →
          visit_game_dirs map q
            (create_lookup_map pf.fileInfo sctx.current_filepath_to_entry_map)
            ⟨media_dirs (load_cache pf.fromJson file), [], []⟩ sctx.pegasus_game_dirs
          = visit_game_dirs map pf
            (create_lookup_map pf.fileInfo sctx.current_filepath_to_entry_map)
            ⟨media_dirs (load_cache pf.fromJson file), [], []⟩ sctx.pegasus_game_dirs →
          run map q sctx file = run map pf sctx file := by
        intro q e1 e2 e3 e4 e5
        unfold run save_cache
        simp only [e1, e2, e3, e4]
        unfold media_dirs at e5
        rw [e5]
      exact hrun _ rfl rfl rfl rfl h1
    · rw [scanned_run, h3]
    · rw [media_dirs_run, h2]
  · have hb : str_to_type map "box_front" = .BOX_FRONT := str_to_type_of_alias hmap (by decide)
    simp [run, visit_game_dirs, MEDIA_SUBDIRS, visit_media_dir, foo_platform, foo_sctx,
      foo_file, load_cache, QJsonDocument.isNull, QJsonDocument.object, QJsonObject.subscript,
      QJsonObject.lookup, find_cached_dir, replay_file, create_lookup_map, HashMap.emplace,
      HashMap.find, extless_path, title_path, hb, foo_cache, foo_record, foo_boxfront_record,
      foo_game, QJsonValue.toArray, QJsonValue.toObject, QJsonValue.toString,
      List.filterMap_cons]

/-- C16, at the end-to-end scenario: the cache holds the record of
`/games/media/foo/boxfront.png`, and the result of `run` is the same whether the directory still
holds the file or is empty. -/
theorem cache_hit_trusts_cache_witness :
    IsAliasMap alias_entries ∧
    run alias_entries
      ((foo_platform [] (.ofObject (foo_cache [foo_boxfront_record]))).withFiles
        (fun _ => [media_file "/games/media/foo" "boxfront" "png"]) (fun _ => "2026-01-01T00:00:00"))
      foo_sctx foo_file
      = run alias_entries (foo_platform [] (.ofObject (foo_cache [foo_boxfront_record])))
          foo_sctx foo_file :=
  ⟨List.Perm.refl _,
    ((cache_hit_trusts_cache alias_entries (List.Perm.refl _)).2.2.1
      (foo_platform [] (.ofObject (foo_cache [foo_boxfront_record]))) foo_sctx foo_file
      (fun _ => [media_file "/games/media/foo" "boxfront" "png"]) (fun _ => "2026-01-01T00:00:00")
      (by
        intro dir_base hmem hex
        have hd : dir_base = "/games" := by simpa [foo_sctx] using hmem
        subst hd
        rfl)).1⟩

/-- C20: the cache-hit path applies neither the extension check nor the `UNKNOWN` filter of the
fresh scan. A cached file record whose `game_key` resolves makes exactly one call of `add_file`,
with `str_to_type` of its `asset_type` and with its `file_path`, so the visit of a cached
directory whose game keys all resolve makes one call per file record. A record with the asset
type `unknown`, or without asset type, is attached under `UNKNOWN`, and a record with the asset
type `video` and the path of a `png` file is attached under `VIDEO`, whose allowed extensions do
not contain `png`; the fresh scan never attaches under `UNKNOWN` nor under a category whose
allowed extensions do not contain the suffix of the file. -/
theorem cache_hit_skips_filters (map : HashMap String AssetType) (hmap : IsAliasMap map) :
    (∀ (lookup_map : HashMap String Game) (item : QJsonValue) (game : Game),
      HashMap.find lookup_map (cached_game_key item) = some game →
      replay_file map lookup_map item
        = some (game, str_to_type map (cached_asset_type item), cached_file_path item)) ∧
    (∀ (pf : Platform) (lookup_map : HashMap String Game) (st : RunState) (dir_base : String)
      (cached_dir : QJsonObject),
      pf.dirExists (dir_base ++ "/media") = true →
      find_cached_dir st.cached_media_dirs (dir_base ++ "/media") = some cached_dir →
      (∀ item ∈ cached_files cached_dir,
        (HashMap.find lookup_map (cached_game_key item)).isSome = true) →
      (visit_media_dir map pf lookup_map st dir_base "/media").added.length
        = st.added.length + (cached_files cached_dir).length) ∧
    (∀ (lookup_map : HashMap String Game) (file_path game_key : String) (game : Game),
      HashMap.find lookup_map game_key = some game →
      replay_file map lookup_map (foo_file_record file_path "unknown" game_key)
        = some (game, .UNKNOWN, file_path) ∧
      replay_file map lookup_map
          (.object [("file_path", .string file_path), ("game_key", .string game_key)])
        = some (game, .UNKNOWN, file_path) ∧
      replay_file map lookup_map (foo_file_record "/games/media/foo/video.png" "video" game_key)
        = some (game, .VIDEO, "/games/media/foo/video.png") ∧
      "png" ∉ allowed_asset_exts .VIDEO) ∧
    (∀ (lookup_map : HashMap String Game) (dir_base media_subdir_name : String) (e : DirEntry)
      (a : AddFile) (f : QJsonValue),
      scan_file map lookup_map dir_base media_subdir_name e = some (a, f) →
      a.2.1 ≠ .UNKNOWN ∧ e.fileInfo.suffix ∈ allowed_asset_exts a.2.1) ∧
    (run map
      (foo_platform []
        (.ofObject (foo_cache
          [foo_file_record "/games/media/foo/notes.txt" "unknown" "/games/foo"])))
      foo_sctx foo_file).added = [(foo_game, .UNKNOWN, "/games/media/foo/notes.txt")] := by
  have hunk : str_to_type map "unknown" = .UNKNOWN := str_to_type_of_no_match hmap (by decide)
  have hempty : str_to_type map "" = .UNKNOWN := str_to_type_of_no_match hmap (by decide)
  have hvideo : str_to_type map "video" = .VIDEO := str_to_type_of_alias hmap (by decide)
  refine ⟨?_, ?_, ?_, ?_, ?_⟩
  · intro lookup_map item game hfind
    rw [replay_file_eq, hfind]
  · intro pf lookup_map st dir_base cached_dir hex hfind hall
    rw [visit_media_dir_hit map pf lookup_map st _ _ cached_dir hex hfind]
    have hlen : ∀ files : QJsonArray,
        (∀ item ∈ files, (HashMap.find lookup_map (cached_game_key item)).isSome = true) →
        (List.filterMap (replay_file map lookup_map) files).length = files.length := by
      intro files
      induction files with
      | nil => intro _; rfl
      | cons item rest ih =>
        intro h
        obtain ⟨game, hgame⟩ := Option.isSome_iff_exists.1 (h item (List.mem_cons_self _ _))
        have hitem : replay_file map lookup_map item
            = some (game, str_to_type map (cached_asset_type item), cached_file_path item) := by
          rw [replay_file_eq, hgame]
        simp [List.filterMap_cons, hitem, ih (fun i hi => h i (List.mem_cons_of_mem _ hi))]
    have := hlen (cached_files cached_dir) hall
    unfold cached_files at this
    simp [this, cached_files]
  · intro lookup_map file_path game_key game hfind
    refine ⟨?_, ?_, ?_, by decide⟩
    · rw [replay_file_eq]
      simp [cached_game_key, cached_asset_type, cached_file_path, foo_file_record,
        QJsonObject.subscript, QJsonObject.lookup, QJsonValue.toObject, QJsonValue.toString,
        hfind, hunk]
    · rw [replay_file_eq]
      simp [cached_game_key, cached_asset_type, cached_file_path,
        QJsonObject.subscript, QJsonObject.lookup, QJsonValue.toObject, QJsonValue.toString,
        QJsonObject.insert, hfind, hempty]
    · rw [replay_file_eq]
      simp [cached_game_key, cached_asset_type, cached_file_path, foo_file_record,
        QJsonObject.subscript, QJsonObject.lookup, QJsonValue.toObject, QJsonValue.toString,
        hfind, hvideo]
  · intro lookup_map dir_base media_subdir_name e a f hscan
    rw [scan_file_eq] at hscan
    cases hfind : HashMap.find lookup_map (scan_lookup_key dir_base media_subdir_name e) with
    | none =>
      rw [hfind] at hscan
      exact Option.noConfusion hscan
    | some game =>
      rw [hfind] at hscan
      simp only [] at hscan
      by_cases hu : detect_asset_type map e.fileInfo.completeBaseName e.fileInfo.suffix
          = .UNKNOWN
      · simp [hu] at hscan
      · simp only [hu, if_false, Option.some.injEq, Prod.mk.injEq] at hscan
        obtain ⟨ha, _⟩ := hscan
        subst ha
        refine ⟨hu, ?_⟩
        by_cases hin : e.fileInfo.suffix ∈
            allowed_asset_exts (str_to_type map e.fileInfo.completeBaseName)
        · simp [detect_asset_type, hin]
        · exact absurd (by simp [detect_asset_type, hin]) hu
  · simp [run, visit_game_dirs, MEDIA_SUBDIRS, visit_media_dir, foo_platform, foo_sctx,
      foo_file, load_cache, QJsonDocument.isNull, QJsonDocument.object, QJsonObject.subscript,
      QJsonObject.lookup, find_cached_dir, replay_file, create_lookup_map, HashMap.emplace,
      HashMap.find, extless_path, title_path, hunk, foo_cache, foo_record, foo_file_record,
      foo_game, QJsonValue.toArray, QJsonValue.toObject, QJsonValue.toString,
      List.filterMap_cons]

/-- C20, at the scenario index and a record with the asset type `unknown`. -/
theorem cache_hit_skips_filters_witness :
    IsAliasMap alias_entries ∧
    replay_file alias_entries [("/games/foo", foo_game)]
      (foo_file_record "/games/media/foo/notes.txt" "unknown" "/games/foo")
      = some (foo_game, .UNKNOWN, "/games/media/foo/notes.txt") :=
  ⟨List.Perm.refl _,
    ((cache_hit_skips_filters alias_entries (List.Perm.refl _)).2.2.1
      [("/games/foo", foo_game)] "/games/media/foo/notes.txt" "/games/foo" foo_game rfl).1⟩

/-! ## Claims on the list of directory records -/

/-- C13: the unique-directory invariant. When the `dir_path` values that `run` reads of the
directory records of the loaded cache are pairwise distinct, so are those of the cache that `run`
leaves and saves, for every list of root directories (a root may occur several times) and every
file system. -/
theorem run_unique_dir_paths (map : HashMap String AssetType) (pf : Platform)
    (sctx : SearchContext) (file : Option QByteArray)
    (h : ((media_dirs (load_cache pf.fromJson file)).map cached_dir_path).Nodup) :
    ((media_dirs (run map pf sctx file).m_cache_data).map cached_dir_path).Nodup ∧
    (run map pf sctx file).file = save_cache pf (run map pf sctx file).m_cache_data file := by
  refine ⟨?_, rfl⟩
  obtain ⟨ext, hc, _, hn, hd⟩ := visit_game_dirs_appended map pf
    (create_lookup_map pf.fileInfo sctx.current_filepath_to_entry_map) sctx.pegasus_game_dirs
    ⟨media_dirs (load_cache pf.fromJson file), [], []⟩
  rw [media_dirs_run, hc, List.map_append, List.nodup_append]
  refine ⟨h, hn, ?_⟩
  intro a ha1 ha2
  obtain ⟨x, hx, hxa⟩ := List.mem_map.1 ha2
  exact hd x hx (hxa ▸ ha1)

/-- C13, at the end-to-end scenario with the root `/games` given twice and no prior cache: one
record is written. -/
theorem run_unique_dir_paths_witness :
    ((media_dirs (load_cache
      (foo_platform [media_file "/games/media/foo" "boxfront" "png"] .null).fromJson
      none)).map cached_dir_path).Nodup ∧
    (media_dirs (run alias_entries
      (foo_platform [media_file "/games/media/foo" "boxfront" "png"] .null)
      ⟨foo_sctx.current_filepath_to_entry_map, ["/games", "/games"]⟩
      none).m_cache_data).map cached_dir_path = ["/games/media"] ∧
    ((media_dirs (run alias_entries
      (foo_platform [media_file "/games/media/foo" "boxfront" "png"] .null)
      ⟨foo_sctx.current_filepath_to_entry_map, ["/games", "/games"]⟩
      none).m_cache_data).map cached_dir_path).Nodup :=
  ⟨List.nodup_nil, rfl,
    (run_unique_dir_paths alias_entries
      (foo_platform [media_file "/games/media/foo" "boxfront" "png"] .null)
      ⟨foo_sctx.current_filepath_to_entry_map, ["/games", "/games"]⟩ none List.nodup_nil).1⟩

/-- C19: `run` is append-only on the cache. The `media_dirs` list that `run` leaves and saves is
the loaded list followed by the appended records; every appended record has a `dir_path` that is
the `dir_path` of no record before it in the list; the appended records are those of the
directories that were enumerated, in order; and a directory that has a record in the loaded cache
is not enumerated. -/
theorem run_append_only (map : HashMap String AssetType) (pf : Platform)
    (sctx : SearchContext) (file : Option QByteArray) :
    (∃ ext : QJsonArray,
      media_dirs (run map pf sctx file).m_cache_data
        = media_dirs (load_cache pf.fromJson file) ++ ext ∧
      (run map pf sctx file).scanned = ext.map cached_dir_path ∧
      (∀ before record after, ext = before ++ record :: after →
        cached_dir_path record ∉
          (media_dirs (load_cache pf.fromJson file) ++ before).map cached_dir_path)) ∧
    media_dirs (load_cache pf.fromJson file)
      <+: media_dirs (run map pf sctx file).m_cache_data ∧
    (∀ media_dir,
      (find_cached_dir (media_dirs (load_cache pf.fromJson file)) media_dir).isSome = true →
      media_dir ∉ (run map pf sctx file).scanned) := by
  obtain ⟨ext, hc, hs, hn, hd⟩ := visit_game_dirs_appended map pf
    (create_lookup_map pf.fileInfo sctx.current_filepath_to_entry_map) sctx.pegasus_game_dirs
    ⟨media_dirs (load_cache pf.fromJson file), [], []⟩
  have hc2 : media_dirs (run map pf sctx file).m_cache_data
      = media_dirs (load_cache pf.fromJson file) ++ ext := by rw [media_dirs_run, hc]
  have hs2 : (run map pf sctx file).scanned = ext.map cached_dir_path := by
    rw [scanned_run, hs]; rfl
  refine ⟨⟨ext, hc2, hs2, ?_⟩, ?_, ?_⟩
  · intro before record after hsplit hmem
    rw [List.map_append] at hmem
    rcases List.mem_append.1 hmem with h | h
    · exact hd record (by rw [hsplit]; simp) h
    · rw [hsplit, List.map_append, List.map_cons, List.nodup_append] at hn
      exact hn.2.2 h (List.mem_cons_self _ _)
  · rw [hc2]
    exact List.prefix_append _ _
  · intro media_dir hsome hmem
    rw [hs2] at hmem
    obtain ⟨x, hx, hxp⟩ := List.mem_map.1 hmem
    apply hd x hx
    rw [hxp]
    cases hfind : find_cached_dir (media_dirs (load_cache pf.fromJson file)) media_dir with
    | none => rw [hfind] at hsome; exact absurd hsome (by simp)
    | some cached_dir =>
      by_contra hnot
      have hnone := (find_cached_dir_eq_none_iff
        (media_dirs (load_cache pf.fromJson file)) media_dir).2
        (fun item hitem hpath => hnot (List.mem_map.2 ⟨item, hitem, hpath⟩))
      rw [hnone] at hfind
      exact Option.noConfusion hfind

/-- C19, at the end-to-end scenario on a later start: `/games/media` has a record in the loaded
cache and is not enumerated, although it holds a new file. -/
theorem run_append_only_witness :
    (find_cached_dir (media_dirs (load_cache
      (foo_platform [media_file "/games/media/foo" "logo" "png"]
        (.ofObject (foo_cache [foo_boxfront_record]))).fromJson foo_file))
      "/games/media").isSome = true ∧
    "/games/media" ∉ (run alias_entries
      (foo_platform [media_file "/games/media/foo" "logo" "png"]
        (.ofObject (foo_cache [foo_boxfront_record]))) foo_sctx foo_file).scanned :=
  ⟨rfl,
    (run_append_only alias_entries
      (foo_platform [media_file "/games/media/foo" "logo" "png"]
        (.ofObject (foo_cache [foo_boxfront_record]))) foo_sctx foo_file).2.2
      "/games/media" rfl⟩

/-! ## Claims on the lookup key and on the ambiguity of the prefix fallback -/

/-- C17: the lookup key of a fresh scan. For every root `R`, an enumerated file whose normalized
containing directory is `R ++ "/media" ++ S` has the lookup key `R ++ S`: the six characters at
the offset of the length of `R` are removed. A file lying directly in `R/media` has the key `R`;
a file in `R/media/name` has the key `R/name`, which resolves in the index when a game file of
the directory `R` has the base name `name` or belongs to a game titled `name`, and resolves to
the game of that game file when no other game file produces the key. -/
theorem scan_lookup_key_spec (R S : String) :
    QString.remove (R ++ "/media" ++ S) R.length "/media".length = R ++ S ∧
    "/media".length = 6 ∧
    (∀ e : DirEntry, e.fileInfo.clean_abs_dir = R ++ "/media" ++ S →
      scan_lookup_key R "/media" e = R ++ S) ∧
    (∀ e : DirEntry, e.fileInfo.clean_abs_dir = R ++ "/media" →
      scan_lookup_key R "/media" e = R) ∧
    (∀ (fileInfo : String → QFileInfo) (games : HashMap String GameFile)
      (pair : String × GameFile) (name : String) (e : DirEntry),
      pair ∈ games →
      (fileInfo pair.1).clean_abs_dir = R →
      ((fileInfo pair.1).completeBaseName = name ∨ pair.2.parentGame.title = name) →
      e.fileInfo.clean_abs_dir = R ++ "/media" ++ ("/" ++ name) →
      scan_lookup_key R "/media" e = R ++ "/" ++ name ∧
      (HashMap.find (create_lookup_map fileInfo games)
        (scan_lookup_key R "/media" e)).isSome = true ∧
      ((∀ other ∈ games, other ≠ pair →
          R ++ "/" ++ name ≠ extless_path (fileInfo other.1) ∧
          R ++ "/" ++ name ≠ title_path (fileInfo other.1) other.2.parentGame) →
        HashMap.find (create_lookup_map fileInfo games) (scan_lookup_key R "/media" e)
          = some pair.2.parentGame)) := by
  refine ⟨remove_media R S, by decide, ?_, ?_, ?_⟩
  · intro e he
    unfold scan_lookup_key
    rw [he, remove_media]
  · intro e he
    have h := remove_media R ""
    simp only [String.append_empty] at h
    unfold scan_lookup_key
    rw [he, h]
  · intro fileInfo games pair name e hp hdir hname he
    have hkey : scan_lookup_key R "/media" e = R ++ "/" ++ name := by
      unfold scan_lookup_key
      rw [he, remove_media, String.append_assoc]
    have hprod : R ++ "/" ++ name = extless_path (fileInfo pair.1) ∨
        R ++ "/" ++ name = title_path (fileInfo pair.1) pair.2.parentGame := by
      rcases hname with h | h
      · exact Or.inl (by rw [extless_path, hdir, h])
      · exact Or.inr (by rw [title_path, hdir, h])
    obtain ⟨g, hg⟩ := create_lookup_map_find_key fileInfo games pair hp _ hprod
    refine ⟨hkey, by rw [hkey, hg]; rfl, ?_⟩
    intro hother
    obtain ⟨q, hq, hqg, hqk⟩ := create_lookup_map_find_owner fileInfo games _ g hg
    rw [hkey, hg]
    by_cases e2 : q = pair
    · rw [← hqg, e2]
    · have := hother q hq e2
      rcases hqk with hqk | hqk
      · exact absurd hqk this.1
      · exact absurd hqk this.2

/-- C17, at the end-to-end scenario: the file `/games/media/foo/boxfront.png` has the key
`/games/foo`, which resolves to the game `Foo`. -/
theorem scan_lookup_key_spec_witness :
    scan_lookup_key "/games" "/media" (media_file "/games/media/foo" "boxfront" "png")
      = "/games/foo" ∧
    HashMap.find
      (create_lookup_map (foo_platform [] .null).fileInfo foo_sctx.current_filepath_to_entry_map)
      (scan_lookup_key "/games" "/media" (media_file "/games/media/foo" "boxfront" "png"))
      = some foo_game :=
  have h := (scan_lookup_key_spec "/games" "/foo").2.2.2.2
    (foo_platform [] .null).fileInfo foo_sctx.current_filepath_to_entry_map
    ("/games/foo.rom", ⟨foo_game⟩) "foo" (media_file "/games/media/foo" "boxfront" "png")
    (by decide) (by decide) (Or.inl (by decide)) (by decide)
  ⟨h.1, h.2.2 (by decide)⟩

/-- C18: the ambiguity of the prefix fallback is confined to the alias `box`. Two aliases of the
table that are prefixes of one token have the same category unless one of them is `box`; so a
token that does not start with `box` is classified in the same way in every iteration order of
the map, also by the prefix fallback alone, and two orders can only disagree on a token that
starts with `box`. They do disagree on `boxfront-alt`, which is `BOX_FRONT` through `boxfront`
in declaration order and `BOX_FULL` through `box` in the reversed order. -/
theorem prefix_ambiguity_confined_to_box :
    (∀ (token : String) (p q : String × AssetType),
      p ∈ alias_entries → q ∈ alias_entries →
      startsWith token p.1 = true → startsWith token q.1 = true →
      p.2 = q.2 ∨ p.1 = "box" ∨ q.1 = "box") ∧
    (∀ (map1 map2 : HashMap String AssetType) (token : String),
      IsAliasMap map1 → IsAliasMap map2 → startsWith token "box" = false →
      str_to_type map1 token = str_to_type map2 token ∧
      (List.find? (fun it => startsWith token it.1) map1).map Prod.snd
        = (List.find? (fun it => startsWith token it.1) map2).map Prod.snd) ∧
    (∀ (map1 map2 : HashMap String AssetType) (token : String),
      IsAliasMap map1 → IsAliasMap map2 →
      str_to_type map1 token ≠ str_to_type map2 token → startsWith token "box" = true) ∧
    (IsAliasMap alias_entries ∧ IsAliasMap alias_entries.reverse ∧
      startsWith "boxfront-alt" "box" = true ∧
      startsWith "boxfront-alt" "boxfront" = true ∧
      str_to_type alias_entries "boxfront-alt" = .BOX_FRONT ∧
      str_to_type alias_entries.reverse "boxfront-alt" = .BOX_FULL) := by
  refine ⟨alias_prefixes_agree, ?_, ?_, ?_⟩
  · intro map1 map2 token h1 h2 hbox
    refine ⟨str_to_type_order_independent h1 h2 token hbox, ?_⟩
    have key : ∀ {m1 m2 : HashMap String AssetType}, IsAliasMap m1 → IsAliasMap m2 →
        ∀ it1, List.find? (fun it => startsWith token it.1) m1 = some it1 →
        ∃ it2, List.find? (fun it => startsWith token it.1) m2 = some it2 ∧ it1.2 = it2.2 := by
      intro m1 m2 hm1 hm2 it1 hf1
      have hmem1 := (hm1.mem_iff it1).1 (List.mem_of_find?_eq_some hf1)
      have hpre1 := List.find?_some hf1
      simp only [] at hpre1
      cases hf2 : List.find? (fun it => startsWith token it.1) m2 with
      | none =>
        have := List.find?_eq_none.1 hf2 it1 ((hm2.mem_iff it1).2 hmem1)
        simp [hpre1] at this
      | some it2 =>
        have hmem2 := (hm2.mem_iff it2).1 (List.mem_of_find?_eq_some hf2)
        have hpre2 := List.find?_some hf2
        simp only [] at hpre2
        refine ⟨it2, rfl, ?_⟩
        rcases alias_prefixes_agree token it1 it2 hmem1 hmem2 hpre1 hpre2 with e | e | e
        · exact e
        · rw [e, hbox] at hpre1
          exact Bool.noConfusion hpre1
        · rw [e, hbox] at hpre2
          exact Bool.noConfusion hpre2
    cases hf1 : List.find? (fun it => startsWith token it.1) map1 with
    | some it1 =>
      obtain ⟨it2, hf2, e⟩ := key h1 h2 it1 hf1
      rw [hf2]
      simp [e]
    | none =>
      cases hf2 : List.find? (fun it => startsWith token it.1) map2 with
      | none => rfl
      | some it2 =>
        obtain ⟨it1, hf1', _⟩ := key h2 h1 it2 hf2
        rw [hf1] at hf1'
        exact Option.noConfusion hf1'
  · intro map1 map2 token h1 h2 hne
    cases hbox : startsWith token "box" with
    | true => rfl
    | false => exact absurd (str_to_type_order_independent h1 h2 token hbox) hne
  · exact ⟨List.Perm.refl _, List.reverse_perm _, by decide, by decide, by decide, by decide⟩

/-- C18, at the token `cartridge_2`, of which the aliases `cart` and `cartridge` are prefixes,
in declaration order and in the reversed order. -/
theorem prefix_ambiguity_confined_to_box_witness :
    str_to_type alias_entries "cartridge_2" = str_to_type alias_entries.reverse "cartridge_2" :=
  ((prefix_ambiguity_confined_to_box).2.1 alias_entries alias_entries.reverse "cartridge_2"
    (List.Perm.refl _) (List.reverse_perm _) (by decide)).1

/-! ## Claims on the cache-miss path -/

/-- C15: the result of a cache-miss scan. For an existing media directory without a record in
the cache, `run` appends exactly one directory record for it, enumerates it once, and the `files`
list of the record holds, in enumeration order, one file record for each enumerated file whose
lookup key resolves in the index and whose detected asset type is not `UNKNOWN`, carrying the
file path, `type_to_str` of the detected type, the modification time, the size and the lookup
key; each such file gets exactly one call of `add_file`, on the resolved game, with the detected
type and the file path, in the same order. The list is empty when no file is accepted, and no
file record written has the asset type `unknown` or a game key that the index does not hold. -/
theorem fresh_scan_result (map : HashMap String AssetType) (pf : Platform)
    (lookup_map : HashMap String Game) (st : RunState) (dir_base : String)
    (hex : pf.dirExists (dir_base ++ "/media") = true)
    (hmiss : find_cached_dir st.cached_media_dirs (dir_base ++ "/media") = none) :
    (visit_media_dir map pf lookup_map st dir_base "/media").cached_media_dirs
      = st.cached_media_dirs ++
        [.object
          [ ("dir_path", .string (dir_base ++ "/media")),
            ("last_scan_time", .string (pf.currentDateTime (dir_base ++ "/media"))),
            ("files", .array
              (((pf.dirEntries (dir_base ++ "/media")).filter
                (scan_accepts map lookup_map dir_base "/media")).map
                (fun e => QJsonValue.object
                  [ ("file_path", .string e.filePath),
                    ("asset_type", .string (type_to_str
                      (detect_asset_type map e.fileInfo.completeBaseName e.fileInfo.suffix))),
                    ("mtime", .number e.fileInfo.lastModified),
                    ("size", .number e.fileInfo.size),
                    ("game_key", .string (scan_lookup_key dir_base "/media" e)) ]))) ]] ∧
    (visit_media_dir map pf lookup_map st dir_base "/media").scanned
      = st.scanned ++ [dir_base ++ "/media"] ∧
    (∃ delta : List AddFile,
      (visit_media_dir map pf lookup_map st dir_base "/media").added = st.added ++ delta ∧
      List.Forall₂
        (fun (e : DirEntry) (a : AddFile) =>
          HashMap.find lookup_map (scan_lookup_key dir_base "/media" e) = some a.1 ∧
          a.2.1 = detect_asset_type map e.fileInfo.completeBaseName e.fileInfo.suffix ∧
          a.2.2 = e.filePath)
        ((pf.dirEntries (dir_base ++ "/media")).filter
          (scan_accepts map lookup_map dir_base "/media"))
        delta) ∧
    ((∀ e ∈ pf.dirEntries (dir_base ++ "/media"),
        scan_accepts map lookup_map dir_base "/media" e = false) →
      (visit_media_dir map pf lookup_map st dir_base "/media").cached_media_dirs
        = st.cached_media_dirs ++
          [.object
            [ ("dir_path", .string (dir_base ++ "/media")),
              ("last_scan_time", .string (pf.currentDateTime (dir_base ++ "/media"))),
              ("files", .array []) ]] ∧
      (visit_media_dir map pf lookup_map st dir_base "/media").added = st.added) ∧
    (∀ e ∈ (pf.dirEntries (dir_base ++ "/media")).filter
        (scan_accepts map lookup_map dir_base "/media"),
      type_to_str (detect_asset_type map e.fileInfo.completeBaseName e.fileInfo.suffix)
        ≠ "unknown" ∧
      (HashMap.find lookup_map (scan_lookup_key dir_base "/media" e)).isSome = true) := by
  have hvisit := visit_media_dir_miss map pf lookup_map st dir_base "/media" hex hmiss
  obtain ⟨hfiles, hadded⟩ := scan_files_eq map lookup_map dir_base "/media"
    (pf.dirEntries (dir_base ++ "/media"))
  have hcached : (visit_media_dir map pf lookup_map st dir_base "/media").cached_media_dirs
      = st.cached_media_dirs ++
        [.object
          [ ("dir_path", .string (dir_base ++ "/media")),
            ("last_scan_time", .string (pf.currentDateTime (dir_base ++ "/media"))),
            ("files", .array
              (((pf.dirEntries (dir_base ++ "/media")).filter
                (scan_accepts map lookup_map dir_base "/media")).map
                (fun e => QJsonValue.object
                  [ ("file_path", .string e.filePath),
                    ("asset_type", .string (type_to_str
                      (detect_asset_type map e.fileInfo.completeBaseName e.fileInfo.suffix))),
                    ("mtime", .number e.fileInfo.lastModified),
                    ("size", .number e.fileInfo.size),
                    ("game_key", .string (scan_lookup_key dir_base "/media" e)) ]))) ]] := by
    rw [hvisit, hfiles]
    simp [QJsonObject.init, QJsonObject.insert]
  refine ⟨hcached, by rw [hvisit], ⟨_, by rw [hvisit], hadded⟩, ?_, ?_⟩
  · intro hnone
    have hfilter : (pf.dirEntries (dir_base ++ "/media")).filter
        (scan_accepts map lookup_map dir_base "/media") = [] := by
      rw [List.filter_eq_nil_iff]
      intro e he
      simp [hnone e he]
    rw [hfilter] at hadded
    refine ⟨by rw [hcached, hfilter]; rfl, ?_⟩
    rw [hvisit]
    have hnil := List.Forall₂.length_eq hadded
    simp only [List.length_nil] at hnil
    simp only [List.length_eq_zero.1 hnil.symm, List.append_nil]
  · intro e he
    have hacc := (List.mem_filter.1 he).2
    simp only [scan_accepts, Bool.and_eq_true, decide_eq_true_eq] at hacc
    exact ⟨type_to_str_ne_unknown _ hacc.2, hacc.1⟩

/-- C15, at the end-to-end scenario with three enumerated files, of which `foo.png` is not
classified and `logo.png` lies in the directory of no game: one record with one file record is
appended. -/
theorem fresh_scan_result_witness :
    (visit_media_dir alias_entries
      (foo_platform
        [media_file "/games/media/foo" "foo" "png",
          media_file "/games/media/foo" "boxfront" "png",
          media_file "/games/media/bar" "logo" "png"] .null)
      (create_lookup_map (foo_platform [] .null).fileInfo foo_sctx.current_filepath_to_entry_map)
      ⟨[], [], []⟩ "/games" "/media").cached_media_dirs
      = [foo_record [foo_boxfront_record]] :=
  (fresh_scan_result alias_entries
    (foo_platform
      [media_file "/games/media/foo" "foo" "png",
        media_file "/games/media/foo" "boxfront" "png",
        media_file "/games/media/bar" "logo" "png"] .null)
    (create_lookup_map (foo_platform [] .null).fileInfo foo_sctx.current_filepath_to_entry_map)
    ⟨[], [], []⟩ "/games" rfl rfl).1.trans rfl

end pegasus
